import Mathlib

/-!
Verification development for the BRAW timelapse tool (`braw_timelapse.py`).

The Python source is shallowly embedded:
* byte buffers are `List Nat` with every byte `< 256` (`WfBytes`);
* `struct` big-endian packing/unpacking becomes `packBE` / `readBE`;
* the atom class hierarchy becomes the `AtomNode` inductive plus a
  closed registry `aidKind` mapping a 4-byte type code to its decoder
  kind (container / opaque leaf / schema-decoded leaf);
* parsing is fuelled (`parseF`), because the Python children loop can
  fail to make progress (a child whose declared length is 0);
* `ContainerAtom.__getitem__` path queries become `queryPath`, and the
  rebuilder's in-place mutations through child references become
  explicit tree rewrites `updatePath`.
-/

set_option maxHeartbeats 1000000
set_option maxRecDepth 4000

/-- Big-endian value of a byte list (`struct.unpack` style); the first
byte is the most significant. -/
def beVal (bs : List Nat) : Nat :=
  bs.foldl (fun a b => a * 256 + b) 0

/-- `struct.pack`-style big-endian encoding of `n` on `w` bytes.  Python
raises on overflow; here the value is reduced mod `2^(8*w)` byte by
byte, which agrees with Python whenever the value fits. -/
def packBE : Nat → Nat → List Nat
  | 0, _ => []
  | w + 1, n => packBE w (n / 256) ++ [n % 256]

/-- Read `w` bytes big-endian at offset `ofs` of `data`. -/
def readBE (data : List Nat) (ofs w : Nat) : Nat :=
  beVal ((data.drop ofs).take w)

/-- Read a 4-byte big-endian unsigned integer (`struct.unpack('>I')`). -/
def read32 (data : List Nat) (ofs : Nat) : Nat :=
  readBE data ofs 4

/-- All entries of the buffer are actual bytes. -/
def WfBytes (l : List Nat) : Prop := ∀ b ∈ l, b < 256

instance (l : List Nat) : Decidable (WfBytes l) :=
  inferInstanceAs (Decidable (∀ b ∈ l, b < 256))

theorem packBE_length (w n : Nat) : (packBE w n).length = w := by
  induction w generalizing n with
  | zero => rfl
  | succ w ih => simp [packBE, ih]

theorem beVal_append_single (l : List Nat) (b : Nat) :
    beVal (l ++ [b]) = beVal l * 256 + b := by
  simp [beVal, List.foldl_append]

theorem packBE_beVal (bs : List Nat) (hwf : ∀ b ∈ bs, b < 256) :
    packBE bs.length (beVal bs) = bs := by
  induction bs using List.reverseRecOn with
  | nil => rfl
  | append_singleton l b ih =>
    have hb : b < 256 := hwf b (by simp)
    have hl : ∀ x ∈ l, x < 256 := fun x hx => hwf x (by simp [hx])
    have h1 : beVal (l ++ [b]) = beVal l * 256 + b := beVal_append_single l b
    have hdiv : (beVal l * 256 + b) / 256 = beVal l := by
      rw [Nat.add_comm, Nat.add_mul_div_right _ _ (by norm_num : 0 < 256),
        Nat.div_eq_of_lt hb, Nat.zero_add]
    have hmod : (beVal l * 256 + b) % 256 = b := by
      rw [Nat.add_comm, Nat.add_mul_mod_self_right, Nat.mod_eq_of_lt hb]
    simp only [List.length_append, List.length_singleton, packBE, h1, hdiv, hmod]
    rw [ih hl]

theorem beVal_lt (bs : List Nat) (hwf : ∀ b ∈ bs, b < 256) :
    beVal bs < 256 ^ bs.length := by
  induction bs using List.reverseRecOn with
  | nil => simp [beVal]
  | append_singleton l b ih =>
    have hb : b < 256 := hwf b (by simp)
    have hl : ∀ x ∈ l, x < 256 := fun x hx => hwf x (by simp [hx])
    have := ih hl
    rw [beVal_append_single]
    calc beVal l * 256 + b < beVal l * 256 + 256 := by omega
    _ = (beVal l + 1) * 256 := by ring
    _ ≤ 256 ^ l.length * 256 := by
        have : beVal l + 1 ≤ 256 ^ l.length := this
        exact Nat.mul_le_mul_right 256 this
    _ = 256 ^ (l ++ [b]).length := by
        simp [List.length_append, Nat.pow_succ]

/-- Packing back what was read reproduces the bytes, the workhorse of the
round-trip proofs. -/
theorem packBE_readBE (data : List Nat) (ofs w : Nat)
    (hwf : WfBytes data) (hle : ofs + w ≤ data.length) :
    packBE w (readBE data ofs w) = (data.drop ofs).take w := by
  have hlen : ((data.drop ofs).take w).length = w := by
    simp [List.length_take, List.length_drop]
    omega
  have hsub : ∀ b ∈ (data.drop ofs).take w, b < 256 := by
    intro b hb
    exact hwf b (List.mem_of_mem_drop (List.mem_of_mem_take hb))
  calc packBE w (readBE data ofs w)
      = packBE ((data.drop ofs).take w).length (beVal ((data.drop ofs).take w)) := by
        rw [hlen]; rfl
    _ = (data.drop ofs).take w := packBE_beVal _ hsub

theorem packBE_read32 (data : List Nat) (ofs : Nat)
    (hwf : WfBytes data) (hle : ofs + 4 ≤ data.length) :
    packBE 4 (read32 data ofs) = (data.drop ofs).take 4 :=
  packBE_readBE data ofs 4 hwf hle

theorem read32_lt (data : List Nat) (ofs : Nat) (hwf : WfBytes data) :
    read32 data ofs < 2 ^ 32 := by
  have hsub : ∀ b ∈ (data.drop ofs).take 4, b < 256 := by
    intro b hb
    exact hwf b (List.mem_of_mem_drop (List.mem_of_mem_take hb))
  have h := beVal_lt _ hsub
  have hlen : ((data.drop ofs).take 4).length ≤ 4 := by
    simp [List.length_take]
  calc read32 data ofs < 256 ^ ((data.drop ofs).take 4).length := h
  _ ≤ 256 ^ 4 := Nat.pow_le_pow_right (by norm_num) hlen
  _ = 2 ^ 32 := by norm_num

/-! ## Atom type registry (the `Atom` subclasses of `braw_timelapse.py`) -/

/-- One field of a `DecodedLeafAtom` schema: its name and its width in
bytes (`'B'` = 1, `'H'` = 2, `'I'` = 4, `'Q'` = 8, `'ks'` = k).  All
fields are big-endian with no padding, so for the embedding only the
width matters; blob (`s`) fields are carried as their big-endian value. -/
structure FieldSpec where
  name : String
  width : Nat
deriving DecidableEq, Repr

/-- Decoder kind resolved from a type code: `ContainerAtom` subclass,
plain `LeafAtom` (opaque), or `DecodedLeafAtom` subclass with header
schema `H` and optional list schema `L`.  (Every registered decoded
atom class defines `H`, so `H` is not optional here.) -/
inductive Kind where
  | container : Kind
  | leaf : Kind
  | decoded : List FieldSpec → Option (List FieldSpec) → Kind
deriving DecidableEq, Repr

def K_MOOV : Nat := 0x6d6f6f76
def K_MVHD : Nat := 0x6d766864
def K_TRAK : Nat := 0x7472616b
def K_TKHD : Nat := 0x746b6864
def K_EDTS : Nat := 0x65647473
def K_ELST : Nat := 0x656c7374
def K_TREF : Nat := 0x74726566
def K_TMCD : Nat := 0x746d6364
def K_MDIA : Nat := 0x6d646961
def K_MDHD : Nat := 0x6d646864
def K_HDLR : Nat := 0x68646c72
def K_MINF : Nat := 0x6d696e66
def K_VMHD : Nat := 0x766d6864
def K_SMHD : Nat := 0x736d6864
def K_GMHD : Nat := 0x676d6864
def K_GMIN : Nat := 0x676d696e
def K_TEXT : Nat := 0x74657374
def K_DINF : Nat := 0x64696e66
def K_DREF : Nat := 0x64726566
def K_STBL : Nat := 0x7374626c
def K_STSD : Nat := 0x73747364
def K_SKIP : Nat := 0x736b6970
def K_STTS : Nat := 0x73747473
def K_STSC : Nat := 0x73747363
def K_STSZ : Nat := 0x7374737a
def K_CO64 : Nat := 0x636f3634
def K_META : Nat := 0x6d657461
def K_KEYS : Nat := 0x6b657973
def K_ILST : Nat := 0x696c7374
def K_WIDE : Nat := 0x77696465
def K_MDAT : Nat := 0x6d646174

/-- `AtomMVHD.H`. -/
def mvhdH : List FieldSpec :=
  [⟨"version", 1⟩, ⟨"flags", 3⟩, ⟨"creation_time", 4⟩,
   ⟨"modification_time", 4⟩, ⟨"timescale", 4⟩, ⟨"duration", 4⟩,
   ⟨"preferred_rate", 4⟩, ⟨"preferred_volume", 2⟩, ⟨"reserved", 10⟩,
   ⟨"matrix", 36⟩, ⟨"preview_time", 4⟩, ⟨"preview_duration", 4⟩,
   ⟨"poster_time", 4⟩, ⟨"selection_time", 4⟩, ⟨"selection_duration", 4⟩,
   ⟨"current_time", 4⟩, ⟨"next_track_id", 4⟩]

/-- `AtomTKHD.H`. -/
def tkhdH : List FieldSpec :=
  [⟨"version", 1⟩, ⟨"flags", 3⟩, ⟨"creation_time", 4⟩,
   ⟨"modification_time", 4⟩, ⟨"track_id", 4⟩, ⟨"reserved1", 4⟩,
   ⟨"duration", 4⟩, ⟨"reserved2", 8⟩, ⟨"layer", 2⟩,
   ⟨"alternate_group", 2⟩, ⟨"volume", 2⟩, ⟨"reserved3", 2⟩,
   ⟨"matrix", 36⟩, ⟨"track_width", 4⟩, ⟨"track_height", 4⟩]

/-- `AtomELST.H`. -/
def elstH : List FieldSpec :=
  [⟨"version", 1⟩, ⟨"flags", 3⟩, ⟨"num_entries", 4⟩]

/-- `AtomELST.L`. -/
def elstL : List FieldSpec :=
  [⟨"track_duration", 4⟩, ⟨"media_time", 4⟩, ⟨"media_rate", 4⟩]

/-- `AtomMDHD.H`. -/
def mdhdH : List FieldSpec :=
  [⟨"version", 1⟩, ⟨"flags", 3⟩, ⟨"creation_time", 4⟩,
   ⟨"modification_time", 4⟩, ⟨"timescale", 4⟩, ⟨"duration", 4⟩,
   ⟨"language", 2⟩, ⟨"quality", 2⟩]

/-- `AtomSTTS.H` (same layout as `AtomSTSC.H` and `AtomCO64.H`). -/
def sttsH : List FieldSpec :=
  [⟨"version", 1⟩, ⟨"flags", 3⟩, ⟨"num_entries", 4⟩]

/-- `AtomSTTS.L`. -/
def sttsL : List FieldSpec :=
  [⟨"sample_count", 4⟩, ⟨"sample_duration", 4⟩]

/-- `AtomSTSC.L`. -/
def stscL : List FieldSpec :=
  [⟨"first_chunk", 4⟩, ⟨"samples_per_chunk", 4⟩, ⟨"sample_description_id", 4⟩]

/-- `AtomSTSZ.H`. -/
def stszH : List FieldSpec :=
  [⟨"version", 1⟩, ⟨"flags", 3⟩, ⟨"sample_size", 4⟩, ⟨"num_entries", 4⟩]

/-- `AtomSTSZ.L`. -/
def stszL : List FieldSpec := [⟨"size", 4⟩]

/-- `AtomCO64.L`. -/
def co64L : List FieldSpec := [⟨"offset", 8⟩]

/-- The registry that `Atom.for_aid` builds from the `Atom` subclasses.
`none` means the type code is unregistered. -/
def aidKind (aid : Nat) : Option Kind :=
  if aid = K_MOOV then some .container
  else if aid = K_MVHD then some (.decoded mvhdH none)
  else if aid = K_TRAK then some .container
  else if aid = K_TKHD then some (.decoded tkhdH none)
  else if aid = K_EDTS then some .container
  else if aid = K_ELST then some (.decoded elstH (some elstL))
  else if aid = K_TREF then some .container
  else if aid = K_TMCD then some .leaf
  else if aid = K_MDIA then some .container
  else if aid = K_MDHD then some (.decoded mdhdH none)
  else if aid = K_HDLR then some .leaf
  else if aid = K_MINF then some .container
  else if aid = K_VMHD then some .leaf
  else if aid = K_SMHD then some .leaf
  else if aid = K_GMHD then some .container
  else if aid = K_GMIN then some .leaf
  else if aid = K_TEXT then some .leaf
  else if aid = K_DINF then some .container
  else if aid = K_DREF then some .leaf
  else if aid = K_STBL then some .container
  else if aid = K_STSD then some .leaf
  else if aid = K_SKIP then some .leaf
  else if aid = K_STTS then some (.decoded sttsH (some sttsL))
  else if aid = K_STSC then some (.decoded sttsH (some stscL))
  else if aid = K_STSZ then some (.decoded stszH (some stszL))
  else if aid = K_CO64 then some (.decoded sttsH (some co64L))
  else if aid = K_META then some .container
  else if aid = K_KEYS then some .leaf
  else if aid = K_ILST then some .leaf
  else none

/-- `Atom.for_aid(aid, fallback)`: unregistered type codes resolve to the
opaque `LeafAtom` only when `fallback` is set, otherwise the dictionary
lookup raises `KeyError`. -/
def forAid (aid : Nat) (fallback : Bool) : Except String Kind :=
  match aidKind aid with
  | some k => .ok k
  | none => if fallback then .ok .leaf else .error "KeyError"

/-! ## Atom tree model -/

/-- A parsed atom.  `leaf` keeps the whole original buffer (header
included), exactly like `Atom.data`; `decoded` keeps the decoded header
record and the decoded list records as field-value lists parallel to the
schema (`DecodedLeafAtom.hdr` / `.lst`). -/
inductive AtomNode where
  | container : Nat → List AtomNode → AtomNode
  | leaf : Nat → List Nat → AtomNode
  | decoded : Nat → List Nat → Option (List (List Nat)) → AtomNode

/-- The type code of a node (`AID`). -/
def aidOf : AtomNode → Nat
  | .container a _ => a
  | .leaf a _ => a
  | .decoded a _ _ => a

/-- Record size in bytes of a schema (`struct.Struct.size`). -/
def recSize (fs : List FieldSpec) : Nat :=
  (fs.map FieldSpec.width).sum

/-- Decode the fields of one record at `ofs` (`Struct.unpack_from`),
assuming the bounds were checked. -/
def decodeFields : List FieldSpec → List Nat → Nat → List Nat
  | [], _, _ => []
  | f :: t, data, ofs => readBE data ofs f.width :: decodeFields t data (ofs + f.width)

/-- `Struct.unpack_from(data, offset=ofs)`: fails (struct.error) when
fewer than `recSize fs` bytes remain. -/
def decodeRecord (fs : List FieldSpec) (data : List Nat) (ofs : Nat) :
    Option (List Nat) :=
  if ofs + recSize fs ≤ data.length then some (decodeFields fs data ofs) else none

/-- `Struct.pack(*rec)`: each value big-endian on its field's width. -/
def encodeRecord (fs : List FieldSpec) (rec : List Nat) : List Nat :=
  (List.zipWith (fun (f : FieldSpec) v => packBE f.width v) fs rec).flatten

/-- The `DecodedLeafAtom.__init__` list loop: `while ofs < len(data)`
decode one record and advance by the record size.  The loop is fuelled;
every registered list schema has a positive record size, so fuel
`data.length + 1` can never run out on the real registry (Python would
loop forever on a zero-size record schema, which does not exist here). -/
def decodeListLoop (fs : List FieldSpec) (data : List Nat) :
    Nat → Nat → Except String (List (List Nat))
  | _, 0 => .error "fuel"
  | ofs, fuel + 1 =>
    if ofs < data.length then
      match decodeRecord fs data ofs with
      | none => .error "struct.error"
      | some r =>
        match decodeListLoop fs data (ofs + recSize fs) fuel with
        | .ok rest => .ok (r :: rest)
        | .error e => .error e
    else .ok []

/-! ## Recursive parsing

`ContainerAtom.__init__` and the per-child `Atom.for_aid`/constructor
dispatch are mutually recursive; the children loop `o += alen` need not
make progress (declared child length 0), so the whole parser takes
explicit fuel.  To keep the recursion structural (and hence kernel
reducible for the concrete witnesses) the two functions are merged into
one on a sum of inputs. -/

/-- Parse errors: `eFuel` marks fuel exhaustion (the Python loop not
terminating), `eMsg` an actual raised exception. -/
inductive PErr where
  | eFuel : PErr
  | eMsg : String → PErr
deriving DecidableEq, Repr

/-- Input of the fuelled parser: construct one atom of known kind from
its sliced buffer (`acls(data)`), or run the children loop of
`ContainerAtom.__init__` from offset `o`. -/
inductive PIn where
  | atom : Kind → Nat → List Nat → PIn
  | kids : List Nat → Nat → PIn

/-- The fuelled parser.  `atom k aid data` mirrors the constructor of
the resolved class; `kids data o` mirrors the `while o <= (l-8)` loop of
`ContainerAtom.__init__` including the final exact-consumption check. -/
def parseF : Nat → PIn → Except PErr (AtomNode ⊕ List AtomNode)
  | 0, _ => .error .eFuel
  | _ + 1, .atom .leaf aid data => .ok (.inl (.leaf aid data))
  | fuel + 1, .atom .container aid data =>
    match parseF fuel (.kids data 8) with
    | .ok (.inr cs) => .ok (.inl (.container aid cs))
    | .ok (.inl _) => .error (.eMsg "unreachable")
    | .error e => .error e
  | _ + 1, .atom (.decoded H L) aid data =>
    match decodeRecord H data 8 with
    | none => .error (.eMsg "struct.error")
    | some hdr =>
      match L with
      | none => .ok (.inl (.decoded aid hdr none))
      | some Ls =>
        match decodeListLoop Ls data (8 + recSize H) (data.length + 1) with
        | .ok lst => .ok (.inl (.decoded aid hdr (some lst)))
        | .error e => .error (.eMsg e)
  | fuel + 1, .kids data o =>
    if o + 8 ≤ data.length then
      let alen := read32 data o
      let aid := read32 data (o + 4)
      match forAid aid false with
      | .error e => .error (.eMsg e)
      | .ok k =>
        match parseF fuel (.atom k aid ((data.drop o).take alen)) with
        | .ok (.inl child) =>
          match parseF fuel (.kids data (o + alen)) with
          | .ok (.inr rest) => .ok (.inr (child :: rest))
          | .ok (.inl _) => .error (.eMsg "unreachable")
          | .error e => .error e
        | .ok (.inr _) => .error (.eMsg "unreachable")
        | .error e => .error e
    else if o = data.length then .ok (.inr [])
    else .error (.eMsg "Data left over while parsing children list")

/-- `Atom.for_buf(buf)`: bounds check, read the common header, resolve
the class (no fallback: a KeyError escapes) and construct it on
`buf[0:alen]`. -/
def forBuf (fuel : Nat) (buf : List Nat) : Except PErr AtomNode :=
  if buf.length < 8 then .error (.eMsg "Buffer too small for ATOM")
  else
    let alen := read32 buf 0
    let aid := read32 buf 4
    match forAid aid false with
    | .error e => .error (.eMsg e)
    | .ok k =>
      match parseF fuel (.atom k aid (buf.take alen)) with
      | .ok (.inl node) => .ok node
      | .ok (.inr _) => .error (.eMsg "unreachable")
      | .error e => .error e

/-! ## Serialization -/

/-- Header schema of a decoded atom, resolved from the registry (the
Python object reads it off its own class). -/
def schemaH (aid : Nat) : List FieldSpec :=
  match aidKind aid with
  | some (.decoded H _) => H
  | _ => []

/-- List schema of a decoded atom. -/
def schemaL (aid : Nat) : List FieldSpec :=
  match aidKind aid with
  | some (.decoded _ (some L)) => L
  | _ => []

mutual

/-- `serialize`: opaque leaves return their stored bytes verbatim;
containers and decoded leaves re-pack a recomputed length prefix. -/
def serializeAtom : AtomNode → List Nat
  | .leaf _ data => data
  | .container aid cs =>
    let cb := serializeKids cs
    packBE 4 (8 + cb.length) ++ packBE 4 aid ++ cb
  | .decoded aid hdr lst =>
    let hs := encodeRecord (schemaH aid) hdr
    let ls := match lst with
      | none => []
      | some l => (l.map (encodeRecord (schemaL aid))).flatten
    packBE 4 (8 + hs.length + ls.length) ++ packBE 4 aid ++ hs ++ ls

/-- `b''.join([c.serialize() for c in self.children])`. -/
def serializeKids : List AtomNode → List Nat
  | [] => []
  | c :: t => serializeAtom c ++ serializeKids t

end

/-! ## Round-trip lemmas -/

theorem forAid_ok {aid : Nat} {k : Kind} (h : forAid aid false = .ok k) :
    aidKind aid = some k := by
  unfold forAid at h
  cases hh : aidKind aid with
  | none => rw [hh] at h; simp at h
  | some k' => rw [hh] at h; simp at h; rw [h]

theorem wfBytes_sub {data : List Nat} (hwf : WfBytes data) (o w : Nat) :
    WfBytes ((data.drop o).take w) := by
  intro b hb
  exact hwf b (List.mem_of_mem_drop (List.mem_of_mem_take hb))

theorem encodeRecord_decodeFields_length (fs : List FieldSpec) (data : List Nat)
    (ofs : Nat) :
    (encodeRecord fs (decodeFields fs data ofs)).length = recSize fs := by
  induction fs generalizing ofs with
  | nil => rfl
  | cons f t ih =>
    simp only [decodeFields, encodeRecord, List.zipWith_cons_cons, List.flatten_cons,
      List.length_append, packBE_length]
    have := ih (ofs + f.width)
    simp only [encodeRecord] at this
    rw [this]
    simp [recSize]

theorem encodeRecord_decodeFields (fs : List FieldSpec) (data : List Nat)
    (ofs : Nat) (hwf : WfBytes data) (hle : ofs + recSize fs ≤ data.length) :
    encodeRecord fs (decodeFields fs data ofs) = (data.drop ofs).take (recSize fs) := by
  induction fs generalizing ofs with
  | nil => rfl
  | cons f t ih =>
    have hw : ofs + f.width ≤ data.length := by
      simp only [recSize, List.map_cons, List.sum_cons] at hle
      omega
    have ht : (ofs + f.width) + recSize t ≤ data.length := by
      simp only [recSize, List.map_cons, List.sum_cons] at hle ⊢
      omega
    simp only [decodeFields, encodeRecord, List.zipWith_cons_cons, List.flatten_cons]
    have h1 : packBE f.width (readBE data ofs f.width) = (data.drop ofs).take f.width :=
      packBE_readBE data ofs f.width hwf hw
    have h2 := ih (ofs + f.width) ht
    simp only [encodeRecord] at h2
    rw [h1, h2]
    have : (data.drop (ofs + f.width)) = (data.drop ofs).drop f.width := by
      rw [List.drop_drop, Nat.add_comm]
    rw [this, ← List.take_add]
    simp [recSize]

theorem decodeListLoop_encode (fs : List FieldSpec) (data : List Nat)
    (hwf : WfBytes data) :
    ∀ fuel ofs lst, decodeListLoop fs data ofs fuel = .ok lst →
      (lst.map (encodeRecord fs)).flatten = data.drop ofs := by
  intro fuel
  induction fuel with
  | zero => intro ofs lst h; simp [decodeListLoop] at h
  | succ fuel ih =>
    intro ofs lst h
    simp only [decodeListLoop] at h
    by_cases ho : ofs < data.length
    · rw [if_pos ho] at h
      cases hr : decodeRecord fs data ofs with
      | none => rw [hr] at h; simp at h
      | some r =>
        rw [hr] at h
        cases hrest : decodeListLoop fs data (ofs + recSize fs) fuel with
        | error e => rw [hrest] at h; simp at h
        | ok rest =>
          rw [hrest] at h
          simp only [Except.ok.injEq] at h
          subst h
          have hle : ofs + recSize fs ≤ data.length := by
            by_contra hc
            simp [decodeRecord, hc] at hr
          have hrr : r = decodeFields fs data ofs := by
            simp only [decodeRecord, if_pos hle, Option.some.injEq] at hr
            exact hr.symm
          subst hrr
          simp only [List.map_cons, List.flatten_cons]
          rw [encodeRecord_decodeFields fs data ofs hwf hle, ih _ _ hrest]
          have hdd : data.drop (ofs + recSize fs) = (data.drop ofs).drop (recSize fs) := by
            rw [List.drop_drop, Nat.add_comm]
          rw [hdd, List.take_append_drop]
    · rw [if_neg ho] at h
      simp only [Except.ok.injEq] at h
      subst h
      simp [List.drop_eq_nil_of_le (by omega : data.length ≤ ofs)]

theorem kids_offset_le {fuel : Nat} {data : List Nat} {o : Nat} {cs : List AtomNode}
    (h : parseF fuel (.kids data o) = .ok (.inr cs)) : o ≤ data.length := by
  cases fuel with
  | zero => simp [parseF] at h
  | succ fuel =>
    simp only [parseF] at h
    by_cases h8 : o + 8 ≤ data.length
    · omega
    · rw [if_neg h8] at h
      by_cases he : o = data.length
      · omega
      · rw [if_neg he] at h; simp at h

theorem serialize_le_parse (fuel : Nat) :
    (∀ k aid data node, WfBytes data → aidKind aid = some k →
      parseF fuel (.atom k aid data) = .ok (.inl node) →
      (serializeAtom node).length ≤ data.length) ∧
    (∀ data o cs, WfBytes data →
      parseF fuel (.kids data o) = .ok (.inr cs) →
      (serializeKids cs).length ≤ data.length - o) := by
  induction fuel with
  | zero =>
    constructor
    · intro k aid data node _ _ h; simp [parseF] at h
    · intro data o cs _ h; simp [parseF] at h
  | succ fuel ih =>
    obtain ⟨ihA, ihK⟩ := ih
    constructor
    · intro k aid data node hwf hreg h
      cases k with
      | leaf =>
        simp only [parseF, Except.ok.injEq, Sum.inl.injEq] at h
        subst h
        simp [serializeAtom]
      | container =>
        simp only [parseF] at h
        cases hk : parseF fuel (.kids data 8) with
        | error e => rw [hk] at h; simp at h
        | ok x =>
          rw [hk] at h
          cases x with
          | inl a => simp at h
          | inr cs =>
            simp only [Except.ok.injEq, Sum.inl.injEq] at h
            subst h
            have h8 : 8 ≤ data.length := kids_offset_le hk
            have hcb := ihK data 8 cs hwf hk
            simp only [serializeAtom, List.length_append, packBE_length]
            omega
      | decoded H L =>
        have hsH : schemaH aid = H := by simp [schemaH, hreg]
        cases L with
        | none =>
          simp only [parseF] at h
          split at h
          · simp at h
          · rename_i hdr hd
            have hle : 8 + recSize H ≤ data.length := by
              by_contra hc
              simp [decodeRecord, hc] at hd
            have hdr_eq : hdr = decodeFields H data 8 := by
              simp only [decodeRecord, if_pos hle, Option.some.injEq] at hd
              exact hd.symm
            simp only [Except.ok.injEq, Sum.inl.injEq] at h
            subst h
            simp only [serializeAtom, hsH, hdr_eq, List.length_append, packBE_length,
              encodeRecord_decodeFields_length]
            simp
            omega
        | some Ls =>
          have hsL : schemaL aid = Ls := by simp [schemaL, hreg]
          simp only [parseF] at h
          split at h
          · simp at h
          · rename_i hdr hd
            have hle : 8 + recSize H ≤ data.length := by
              by_contra hc
              simp [decodeRecord, hc] at hd
            have hdr_eq : hdr = decodeFields H data 8 := by
              simp only [decodeRecord, if_pos hle, Option.some.injEq] at hd
              exact hd.symm
            split at h
            · rename_i lst hl
              simp only [Except.ok.injEq, Sum.inl.injEq] at h
              subst h
              have hls := decodeListLoop_encode Ls data hwf _ _ _ hl
              have hlen : ((lst.map (encodeRecord Ls)).flatten).length
                  = data.length - (8 + recSize H) := by
                rw [hls]; simp
              simp only [serializeAtom, hsH, hsL, hdr_eq, List.length_append,
                packBE_length, encodeRecord_decodeFields_length, hlen]
              omega
            · simp at h
    · intro data o cs hwf h
      simp only [parseF] at h
      by_cases h8 : o + 8 ≤ data.length
      · rw [if_pos h8] at h
        split at h
        · simp at h
        · rename_i k hfa
          split at h
          · rename_i child hc
            split at h
            · rename_i rest hr
              simp only [Except.ok.injEq, Sum.inr.injEq] at h
              subst h
              have hoal : o + read32 data o ≤ data.length := kids_offset_le hr
              have hslice : ((data.drop o).take (read32 data o)).length
                  = read32 data o := by
                simp [List.length_take, List.length_drop]
                omega
              have hchild := ihA k (read32 data (o + 4)) _ child
                (wfBytes_sub hwf o (read32 data o)) (forAid_ok hfa) hc
              rw [hslice] at hchild
              have hrest := ihK data (o + read32 data o) rest hwf hr
              simp only [serializeKids, List.length_append]
              omega
            · simp at h
            · simp at h
          · simp at h
          · simp at h
      · rw [if_neg h8] at h
        by_cases he : o = data.length
        · rw [if_pos he] at h
          simp only [Except.ok.injEq, Sum.inr.injEq] at h
          subst h
          simp [serializeKids]
        · rw [if_neg he] at h; simp at h

theorem assemble_take_drop (data : List Nat) (p q : List Nat)
    (hp : p = data.take 4) (hq : q = (data.drop 4).take 4) (r : List Nat)
    (hr : r = (data.drop 4).drop 4) :
    p ++ q ++ r = data := by
  subst hp; subst hq; subst hr
  rw [List.append_assoc, List.take_append_drop, List.take_append_drop]

theorem assemble_take_drop4 (data : List Nat) (p q r s : List Nat)
    (hp : p = data.take 4) (hq : q = (data.drop 4).take 4)
    (hrs : r ++ s = (data.drop 4).drop 4) :
    p ++ q ++ r ++ s = data := by
  subst hp; subst hq
  rw [List.append_assoc, hrs, List.append_assoc, List.take_append_drop,
    List.take_append_drop]

theorem serialize_eq_parse (fuel : Nat) :
    (∀ k aid data node, WfBytes data → aidKind aid = some k →
      parseF fuel (.atom k aid data) = .ok (.inl node) →
      (serializeAtom node).length = data.length →
      (4 ≤ data.length → data.take 4 = packBE 4 data.length) →
      (8 ≤ data.length → (data.drop 4).take 4 = packBE 4 aid) →
      serializeAtom node = data) ∧
    (∀ data o cs, WfBytes data →
      parseF fuel (.kids data o) = .ok (.inr cs) →
      (serializeKids cs).length = data.length - o →
      serializeKids cs = data.drop o) := by
  induction fuel with
  | zero =>
    constructor
    · intro k aid data node _ _ h; simp [parseF] at h
    · intro data o cs _ h; simp [parseF] at h
  | succ fuel ih =>
    obtain ⟨ihA, ihK⟩ := ih
    constructor
    · intro k aid data node hwf hreg h hlen h4 h48
      cases k with
      | leaf =>
        simp only [parseF, Except.ok.injEq, Sum.inl.injEq] at h
        subst h
        rfl
      | container =>
        simp only [parseF] at h
        cases hk : parseF fuel (.kids data 8) with
        | error e => rw [hk] at h; simp at h
        | ok x =>
          rw [hk] at h
          cases x with
          | inl a => simp at h
          | inr cs =>
            simp only [Except.ok.injEq, Sum.inl.injEq] at h
            subst h
            have h8 : 8 ≤ data.length := kids_offset_le hk
            simp only [serializeAtom, List.length_append, packBE_length] at hlen
            have hcb : (serializeKids cs).length = data.length - 8 := by omega
            have hkid := ihK data 8 cs hwf hk hcb
            simp only [serializeAtom]
            apply assemble_take_drop
            · have h14 : 8 + (serializeKids cs).length = data.length := by omega
              rw [h14, h4 (by omega)]
            · rw [h48 h8]
            · rw [hkid, List.drop_drop]
      | decoded H L =>
        have hsH : schemaH aid = H := by simp [schemaH, hreg]
        cases L with
        | none =>
          simp only [parseF] at h
          split at h
          · simp at h
          · rename_i hdr hd
            have hle : 8 + recSize H ≤ data.length := by
              by_contra hc
              simp [decodeRecord, hc] at hd
            have hdr_eq : hdr = decodeFields H data 8 := by
              simp only [decodeRecord, if_pos hle, Option.some.injEq] at hd
              exact hd.symm
            simp only [Except.ok.injEq, Sum.inl.injEq] at h
            subst h
            have hhs := encodeRecord_decodeFields H data 8 hwf hle
            have hhl : (encodeRecord H (decodeFields H data 8)).length = recSize H :=
              encodeRecord_decodeFields_length H data 8
            simp only [serializeAtom, hsH, hdr_eq, List.length_append, packBE_length,
              List.length_nil, Nat.add_zero, hhl] at hlen
            simp only [serializeAtom, hsH, hdr_eq, List.length_nil, Nat.add_zero,
              List.append_nil]
            apply assemble_take_drop
            · rw [hhl]
              have h14 : 8 + recSize H = data.length := by omega
              rw [h14, h4 (by omega)]
            · rw [h48 (by omega)]
            · rw [hhs]
              have hdl : (data.drop 8).length ≤ recSize H := by
                simp [List.length_drop]
                omega
              rw [List.take_of_length_le hdl, List.drop_drop]
        | some Ls =>
          have hsL : schemaL aid = Ls := by simp [schemaL, hreg]
          simp only [parseF] at h
          split at h
          · simp at h
          · rename_i hdr hd
            have hle : 8 + recSize H ≤ data.length := by
              by_contra hc
              simp [decodeRecord, hc] at hd
            have hdr_eq : hdr = decodeFields H data 8 := by
              simp only [decodeRecord, if_pos hle, Option.some.injEq] at hd
              exact hd.symm
            split at h
            · rename_i lst hl
              simp only [Except.ok.injEq, Sum.inl.injEq] at h
              subst h
              have hls := decodeListLoop_encode Ls data hwf _ _ _ hl
              have hhs := encodeRecord_decodeFields H data 8 hwf hle
              have hhl : (encodeRecord H (decodeFields H data 8)).length = recSize H :=
                encodeRecord_decodeFields_length H data 8
              have hlsl : ((lst.map (encodeRecord Ls)).flatten).length
                  = data.length - (8 + recSize H) := by
                rw [hls]
                simp
              simp only [serializeAtom, hsH, hsL, hdr_eq]
              apply assemble_take_drop4
              · rw [hhl, hlsl]
                have h14 : 8 + recSize H + (data.length - (8 + recSize H))
                    = data.length := by omega
                rw [h14, h4 (by omega)]
              · rw [h48 (by omega)]
              · rw [hhs, hls]
                have hdd : data.drop (8 + recSize H) = (data.drop 8).drop (recSize H) := by
                  rw [List.drop_drop, Nat.add_comm]
                rw [hdd, List.take_append_drop, List.drop_drop]
            · simp at h
    · intro data o cs hwf h hlen
      simp only [parseF] at h
      by_cases h8 : o + 8 ≤ data.length
      · rw [if_pos h8] at h
        split at h
        · simp at h
        · rename_i k hfa
          split at h
          · rename_i child hc
            split at h
            · rename_i rest hr
              simp only [Except.ok.injEq, Sum.inr.injEq] at h
              subst h
              have hoal : o + read32 data o ≤ data.length := kids_offset_le hr
              have hslice : ((data.drop o).take (read32 data o)).length
                  = read32 data o := by
                simp [List.length_take, List.length_drop]
                omega
              have hchild_le := (serialize_le_parse fuel).1 k (read32 data (o + 4)) _
                child (wfBytes_sub hwf o (read32 data o)) (forAid_ok hfa) hc
              rw [hslice] at hchild_le
              have hrest_le := (serialize_le_parse fuel).2 data (o + read32 data o)
                rest hwf hr
              simp only [serializeKids, List.length_append] at hlen
              have hchild_len : (serializeAtom child).length = read32 data o := by omega
              have hrest_len : (serializeKids rest).length
                  = data.length - (o + read32 data o) := by omega
              have hkid := ihK data (o + read32 data o) rest hwf hr hrest_len
              have hch := ihA k (read32 data (o + 4)) _ child
                (wfBytes_sub hwf o (read32 data o)) (forAid_ok hfa) hc
                (by rw [hslice]; exact hchild_len)
                (by
                  intro h4'
                  rw [hslice] at h4' ⊢
                  rw [List.take_take, Nat.min_eq_left h4',
                    packBE_read32 data o hwf (by omega)])
                (by
                  intro h8'
                  rw [hslice] at h8'
                  rw [List.drop_take, List.drop_drop, List.take_take,
                    Nat.min_eq_left (by omega),
                    packBE_read32 data (o + 4) hwf (by omega)])
              simp only [serializeKids]
              rw [hch, hkid]
              have hdd : data.drop (o + read32 data o)
                  = (data.drop o).drop (read32 data o) := by
                rw [List.drop_drop, Nat.add_comm]
              rw [hdd, List.take_append_drop]
            · simp at h
            · simp at h
          · simp at h
          · simp at h
      · rw [if_neg h8] at h
        by_cases he : o = data.length
        · rw [if_pos he] at h
          simp only [Except.ok.injEq, Sum.inr.injEq] at h
          subst h
          simp [serializeKids, List.drop_eq_nil_of_le (by omega : data.length ≤ o)]
        · rw [if_neg he] at h; simp at h

/-! ## Claim C4: serialize/parse round trip -/

/-- C4 (amended): for every well-formed buffer that `Atom.for_buf`
parses successfully, serializing the unmodified node reproduces the
buffer exactly, provided the declared length equals the buffer length
and serialization preserves the byte count (the parse silently ignores
bytes beyond the declared length, and a header-only schema leaf silently
ignores trailing body bytes; in both cases those bytes are dropped on
re-serialization, which is what the two extra hypotheses rule out). -/
theorem C4_roundtrip_amended (fuel : Nat) (buf : List Nat) (node : AtomNode)
    (hwf : WfBytes buf) (hp : forBuf fuel buf = .ok node)
    (hdecl : read32 buf 0 = buf.length)
    (hsz : (serializeAtom node).length = buf.length) :
    serializeAtom node = buf := by
  simp only [forBuf] at hp
  by_cases hlt : buf.length < 8
  · rw [if_pos hlt] at hp; simp at hp
  · rw [if_neg hlt] at hp
    split at hp
    · simp at hp
    · rename_i k hfa
      split at hp
      · rename_i node' hn
        simp only [Except.ok.injEq] at hp
        subst hp
        rw [hdecl, List.take_length] at hn
        exact (serialize_eq_parse fuel).1 k (read32 buf 4) buf node' hwf
          (forAid_ok hfa) hn hsz
          (by
            intro h4
            rw [← hdecl, packBE_read32 buf 0 hwf (by omega), List.drop_zero])
          (by
            intro h8
            rw [packBE_read32 buf 4 hwf (by omega)])
      · simp at hp
      · simp at hp

/-- Closed witness for `C4_roundtrip_amended`: a `moov` container with
one opaque child round-trips. -/
theorem C4_roundtrip_amended_witness :
    serializeAtom
        (AtomNode.container K_MOOV [.leaf K_HDLR [0, 0, 0, 8, 0x68, 0x64, 0x6c, 0x72]])
      = [0, 0, 0, 16, 0x6d, 0x6f, 0x6f, 0x76, 0, 0, 0, 8, 0x68, 0x64, 0x6c, 0x72] :=
  C4_roundtrip_amended 3
    [0, 0, 0, 16, 0x6d, 0x6f, 0x6f, 0x76, 0, 0, 0, 8, 0x68, 0x64, 0x6c, 0x72]
    (AtomNode.container K_MOOV [.leaf K_HDLR [0, 0, 0, 8, 0x68, 0x64, 0x6c, 0x72]])
    (by decide) (by rfl) (by decide) (by decide)

/-- An opaque `hdlr` atom of declared length 8 inside a 9-byte buffer. -/
def c4LeafBuf : List Nat := [0, 0, 0, 8, 0x68, 0x64, 0x6c, 0x72, 0]

/-- A `mvhd` atom whose declared length 109 covers 100 header bytes plus
one trailing byte the schema decoder never reads. -/
def c4MvhdBuf : List Nat :=
  [0, 0, 0, 109, 0x6d, 0x76, 0x68, 0x64] ++ List.replicate 101 0

/-- C4 as literally stated is false: both buffers parse successfully
into nodes of registered types with no mutation, yet serialization does
not return the original bytes (the trailing byte is dropped; in the
`mvhd` case the recomputed length prefix is 108, not 109). -/
theorem C4_counterexample :
    (forBuf 2 c4LeafBuf = .ok (.leaf K_HDLR (c4LeafBuf.take 8)) ∧
      serializeAtom (.leaf K_HDLR (c4LeafBuf.take 8)) ≠ c4LeafBuf) ∧
    (forBuf 2 c4MvhdBuf = .ok (.decoded K_MVHD (List.replicate 17 0) none) ∧
      serializeAtom (.decoded K_MVHD (List.replicate 17 0) none) ≠ c4MvhdBuf) :=
  ⟨⟨by rfl, by decide⟩, ⟨by rfl, by decide⟩⟩

/-! ## Claim C2: unregistered atom type codes -/

/-- A well-formed 8-byte atom whose type code `'free'` is unregistered. -/
def c2Buf : List Nat := [0, 0, 0, 8, 0x66, 0x72, 0x65, 0x65]

/-- C2 as literally stated is false: `'free'` is not a registered type
code, and parsing the buffer through `Atom.for_buf` (which calls
`Atom.for_aid` without `fallback`) raises `KeyError` instead of
producing an opaque leaf. -/
theorem C2_counterexample :
    aidKind 0x66726565 = none ∧
      (∀ fuel, forBuf fuel c2Buf = .error (.eMsg "KeyError")) := by
  constructor
  · decide
  · intro fuel
    rfl

/-- C2 (amended): `Atom.for_aid` resolves an unregistered type code to
the opaque `LeafAtom` class only when its `fallback` flag is set (the
parse path `Atom.for_buf` / `ContainerAtom.__init__` does not set it);
an opaque leaf stores its bytes verbatim and re-serializes them
byte-for-byte. -/
theorem C2_opaque_leaf_fallback (aid : Nat) (h : aidKind aid = none) :
    forAid aid true = .ok .leaf ∧
      ∀ data : List Nat, serializeAtom (.leaf aid data) = data := by
  constructor
  · simp [forAid, h]
  · intro data
    rfl

/-- Closed witness for `C2_opaque_leaf_fallback` at the `'free'` type code. -/
theorem C2_opaque_leaf_fallback_witness :
    forAid 0x66726565 true = .ok .leaf ∧
      serializeAtom (.leaf 0x66726565 [1, 2, 3]) = [1, 2, 3] :=
  ⟨(C2_opaque_leaf_fallback 0x66726565 (by decide)).1,
    (C2_opaque_leaf_fallback 0x66726565 (by decide)).2 [1, 2, 3]⟩

/-! ## Claim C3: the children loop need not terminate -/

/-- A 24-byte `moov` container whose first child declares length 0 with
the registered opaque type `hdlr`: `ContainerAtom.__init__` reads
`alen = 0`, constructs an empty `LeafAtom`, advances `o` by 0 and loops
forever. -/
def c3Buf : List Nat :=
  [0, 0, 0, 24, 0x6d, 0x6f, 0x6f, 0x76,
   0, 0, 0, 0, 0x68, 0x64, 0x6c, 0x72,
   0, 0, 0, 0, 0, 0, 0, 0]

/-- The parse of `buf` runs out of fuel no matter how much fuel it is
given, i.e. the Python code loops forever on `buf`. -/
def ParseDiverges (buf : List Nat) : Prop :=
  ∀ fuel, forBuf fuel buf = .error .eFuel

theorem c3_kids_diverge : ∀ fuel, parseF fuel (.kids c3Buf 8) = .error .eFuel := by
  intro fuel
  induction fuel with
  | zero => rfl
  | succ fuel ih =>
    cases fuel with
    | zero => rfl
    | succ f =>
      have hstep : parseF (f + 2) (.kids c3Buf 8) =
          (match parseF (f + 1) (.kids c3Buf 8) with
            | .ok (.inr rest) => .ok (.inr (AtomNode.leaf K_HDLR [] :: rest))
            | .ok (.inl _) => .error (.eMsg "unreachable")
            | .error e => .error e) := rfl
      rw [hstep, ih]

/-- C3 fails on the code: parsing this container never terminates (for
every fuel bound the fuelled embedding runs out of fuel), instead of
returning a node or raising a format error. -/
theorem C3_parse_divergence : ParseDiverges c3Buf := by
  intro fuel
  cases fuel with
  | zero => rfl
  | succ f =>
    have hstep : forBuf (f + 1) c3Buf =
        (match (match parseF f (.kids c3Buf 8) with
                | .ok (.inr cs) => .ok (Sum.inl (AtomNode.container K_MOOV cs))
                | .ok (.inl _) => .error (.eMsg "unreachable")
                | .error e => .error e : Except PErr (AtomNode ⊕ List AtomNode)) with
          | .ok (.inl node) => .ok node
          | .ok (.inr _) => .error (.eMsg "unreachable")
          | .error e => .error e) := rfl
    rw [hstep, c3_kids_diverge f]

/-! ## Claim C1: BrawTimelapser.add_chunk -/

/-- The output-builder state of `BrawTimelapser` (the fields `clear`
initializes for the write level). -/
structure TLState where
  write_list : List (Nat × List Nat)
  write_offset : Nat

/-- `BrawTimelapser.clear()`: empty write list, cursor 0. -/
def tlClear : TLState := ⟨[], 0⟩

/-- `BrawTimelapser.add_chunk(data, offset)`.  With a requested offset
the code raises `'Attempt to add chunk to already assigned parts'` when
`offset > self.write_offset`, and otherwise sets the cursor to
`offset`; the chunk is then appended at the cursor, and the cursor
advances past the chunk to the next 4096-byte page boundary,
`(len(data) + 4095) & ~4095`, written here as division. -/
def addChunk (st : TLState) (data : List Nat) (offset : Option Nat) :
    Except String (TLState × Nat) :=
  match offset with
  | some ofs =>
    if st.write_offset < ofs then
      .error "Attempt to add chunk to already assigned parts"
    else
      .ok (⟨st.write_list ++ [(ofs, data)],
            ofs + (data.length + 4095) / 4096 * 4096⟩, ofs)
  | none =>
    .ok (⟨st.write_list ++ [(st.write_offset, data)],
          st.write_offset + (data.length + 4095) / 4096 * 4096⟩, st.write_offset)

/-- State after `clear()` and `add_chunk(header)` (16-byte header):
cursor 4096. -/
def c1State1 : TLState :=
  match addChunk tlClear (List.replicate 16 0) none with
  | .ok (st, _) => st
  | .error _ => tlClear

/-- State after one further 1-byte chunk (page-aligned advance):
cursor 8192. -/
def c1State2 : TLState :=
  match addChunk c1State1 [0] none with
  | .ok (st, _) => st
  | .error _ => tlClear

/-- Result of requesting offset 0 (far below the cursor 8192). -/
def c1After : TLState × Nat :=
  match addChunk c1State2 [0] (some 0) with
  | .ok r => r
  | .error _ => (tlClear, 0)

/-- C1 is the opposite of what the code does: with the cursor at 8192, a
request for the free offset 12288 (≥ cursor) is rejected with the
"already assigned parts" error, while a request for offset 0 (< cursor,
inside the already-assigned header page) is accepted, places the chunk
at 0, and drops the cursor from 8192 to 4096. -/
theorem C1_add_chunk_contradiction :
    c1State2.write_offset = 8192 ∧
    8192 ≤ 12288 ∧
    addChunk c1State2 [0] (some 12288)
      = .error "Attempt to add chunk to already assigned parts" ∧
    addChunk c1State2 [0] (some 0) = .ok c1After ∧
    c1After.2 = 0 ∧
    c1After.1.write_offset = 4096 ∧
    c1After.1.write_offset < c1State2.write_offset :=
  ⟨rfl, by decide, rfl, rfl, rfl, rfl, by decide⟩

/-! ## Claim C6: the metadata pointer -/

/-- The metadata-pointer dispatch at the top of `BrawReader.parse`:
`mp = struct.unpack('>IIII', mv[0:16])`, then Format 1
(`8, 'wide', ptr, 'mdat'` → `ptr + 8`), Format 2
(`1, 'mdat', be64 ptr` → `ptr`), else `RuntimeError`. -/
def parseMetaPtr (mv : List Nat) : Except String Nat :=
  if mv.length < 16 then .error "struct.error"
  else if read32 mv 0 = 8 ∧ read32 mv 4 = K_WIDE ∧ read32 mv 12 = K_MDAT then
    .ok (read32 mv 8 + 8)
  else if read32 mv 0 = 1 ∧ read32 mv 4 = K_MDAT then
    .ok (read32 mv 8 <<< 32 ||| read32 mv 12)
  else .error "Unknown metadata pointer format"

/-- The first two steps of `BrawReader.parse`: locate the metadata block,
then parse `mv[md_ofs:]` as an atom tree. -/
def brawParseMd (fuel : Nat) (mv : List Nat) : Except String AtomNode :=
  match parseMetaPtr mv with
  | .error e => .error e
  | .ok mdOfs =>
    match forBuf fuel (mv.drop mdOfs) with
    | .ok a => .ok a
    | .error .eFuel => .error "fuel"
    | .error (.eMsg e) => .error e

/-- Layout A of the claim: 32-bit 8, `'wide'`, 32-bit pointer, `'mdat'`. -/
def LayoutA (mv : List Nat) : Prop :=
  read32 mv 0 = 8 ∧ read32 mv 4 = K_WIDE ∧ read32 mv 12 = K_MDAT

instance (mv : List Nat) : Decidable (LayoutA mv) :=
  inferInstanceAs
    (Decidable (read32 mv 0 = 8 ∧ read32 mv 4 = K_WIDE ∧ read32 mv 12 = K_MDAT))

/-- Layout B of the claim: 32-bit 1, `'mdat'`, 64-bit big-endian pointer. -/
def LayoutB (mv : List Nat) : Prop :=
  read32 mv 0 = 1 ∧ read32 mv 4 = K_MDAT

instance (mv : List Nat) : Decidable (LayoutB mv) :=
  inferInstanceAs (Decidable (read32 mv 0 = 1 ∧ read32 mv 4 = K_MDAT))

/-- C6: a Layout A header yields metadata offset P + 8 (P the 32-bit
word at offset 8); a Layout B header yields the 64-bit big-endian P
(high word at offset 8, low word at offset 12); any other 16-byte
pattern raises the format error, and the whole parse then fails with
that error for every fuel, i.e. before any atom-tree parsing. -/
theorem C6_metadata_pointer (mv : List Nat) (hlen : 16 ≤ mv.length) :
    (LayoutA mv → parseMetaPtr mv = .ok (read32 mv 8 + 8)) ∧
    (LayoutB mv → parseMetaPtr mv = .ok (read32 mv 8 <<< 32 ||| read32 mv 12)) ∧
    (¬LayoutA mv → ¬LayoutB mv →
      parseMetaPtr mv = .error "Unknown metadata pointer format" ∧
      ∀ fuel, brawParseMd fuel mv = .error "Unknown metadata pointer format") := by
  refine ⟨?_, ?_, ?_⟩
  · intro hA
    obtain ⟨h0, h4, h12⟩ := hA
    simp only [parseMetaPtr]
    rw [if_neg (by omega), if_pos ⟨h0, h4, h12⟩]
  · intro hB
    obtain ⟨h0, h4⟩ := hB
    have hnA : ¬(read32 mv 0 = 8 ∧ read32 mv 4 = K_WIDE ∧ read32 mv 12 = K_MDAT) := by
      rintro ⟨h8, -, -⟩
      rw [h0] at h8
      norm_num at h8
    simp only [parseMetaPtr]
    rw [if_neg (by omega), if_neg hnA, if_pos ⟨h0, h4⟩]
  · intro hA hB
    have hA' : ¬(read32 mv 0 = 8 ∧ read32 mv 4 = K_WIDE ∧ read32 mv 12 = K_MDAT) := hA
    have hB' : ¬(read32 mv 0 = 1 ∧ read32 mv 4 = K_MDAT) := hB
    have hpm : parseMetaPtr mv = .error "Unknown metadata pointer format" := by
      simp only [parseMetaPtr]
      rw [if_neg (by omega), if_neg hA', if_neg hB']
    exact ⟨hpm, fun fuel => by simp only [brawParseMd, hpm]⟩

/-- Closed witness for `C6_metadata_pointer`, one concrete header per
branch. -/
theorem C6_metadata_pointer_witness :
    parseMetaPtr ([0, 0, 0, 8, 0x77, 0x69, 0x64, 0x65, 0, 0, 1, 0] ++
        [0x6d, 0x64, 0x61, 0x74]) = .ok 0x108 ∧
    parseMetaPtr ([0, 0, 0, 1, 0x6d, 0x64, 0x61, 0x74] ++
        [0, 0, 0, 1, 0, 0, 0, 2]) = .ok 0x100000002 ∧
    parseMetaPtr (List.replicate 16 0) = .error "Unknown metadata pointer format" := by
  refine ⟨?_, ?_, ?_⟩
  · have h := (C6_metadata_pointer
      ([0, 0, 0, 8, 0x77, 0x69, 0x64, 0x65, 0, 0, 1, 0] ++ [0x6d, 0x64, 0x61, 0x74])
      (by decide)).1 (by decide)
    exact h.trans rfl
  · have h := (C6_metadata_pointer
      ([0, 0, 0, 1, 0x6d, 0x64, 0x61, 0x74] ++ [0, 0, 0, 1, 0, 0, 0, 2])
      (by decide)).2.1 (by decide)
    exact h.trans rfl
  · exact ((C6_metadata_pointer (List.replicate 16 0) (by decide)).2.2
      (by decide) (by decide)).1

/-! ## Claim C7: frame descriptors from stsz and co64 -/

/-- The `for i in range(v_stsz.hdr.num_entries)` loop of
`BrawReader.parse`, iterating `rem` more indices starting at `i`:
`fs = v_stsz.lst[i].size; fo = v_co64.lst[i].offset;
frames.append(mv[fo:fo+fs])`.  A frame is modelled by its
`(offset, size)` pair; an out-of-range index is Python's `IndexError`. -/
def framesLoop (sl cl : List (List Nat)) : Nat → Nat → Except String (List (Nat × Nat))
  | _, 0 => .ok []
  | i, rem + 1 =>
    match sl[i]?, cl[i]? with
    | some rs, some rc =>
      match framesLoop sl cl (i + 1) rem with
      | .ok rest => .ok ((rc.getD 0 0, rs.getD 0 0) :: rest)
      | .error e => .error e
    | _, _ => .error "IndexError"

/-- Frame-table extraction of `BrawReader.parse`: compare
`v_stsz.hdr.num_entries` (field 3 of the stsz header) with
`v_co64.hdr.num_entries` (field 2 of the co64 header), raise on
mismatch, else pair the tables index by index. -/
def buildFrames (stszHdr : List Nat) (stszLst : List (List Nat))
    (co64Hdr : List Nat) (co64Lst : List (List Nat)) :
    Except String (List (Nat × Nat)) :=
  if stszHdr.getD 3 0 ≠ co64Hdr.getD 2 0 then
    .error "Inconsistent number of entried in STSZ & CO64"
  else framesLoop stszLst co64Lst 0 (stszHdr.getD 3 0)

theorem framesLoop_ok (sl cl : List (List Nat)) :
    ∀ rem i, i + rem ≤ sl.length → i + rem ≤ cl.length →
      framesLoop sl cl i rem
        = .ok ((List.range' i rem).map (fun j =>
            ((cl.getD j []).getD 0 0, (sl.getD j []).getD 0 0))) := by
  intro rem
  induction rem with
  | zero => intro i _ _; simp [framesLoop]
  | succ rem ih =>
    intro i hs hc
    have hsl : i < sl.length := by omega
    have hcl : i < cl.length := by omega
    have hvs : sl[i]? = some sl[i] := List.getElem?_eq_getElem hsl
    have hvc : cl[i]? = some cl[i] := List.getElem?_eq_getElem hcl
    simp only [framesLoop, hvs, hvc, ih (i + 1) (by omega) (by omega),
      List.range'_succ, List.map_cons]
    rw [List.getD_eq_getElem sl [] hsl, List.getD_eq_getElem cl [] hcl]

/-- C7: `BrawReader.parse` raises when the stsz and co64 headers declare
unequal entry counts; when both declare `N` (and the record lists reach
index `N`, otherwise Python raises IndexError), it builds exactly the
`N` descriptors pairing offset `i` of co64 with size `i` of stsz, by
index. -/
theorem C7_frame_pairing (stszHdr co64Hdr : List Nat)
    (stszLst co64Lst : List (List Nat)) :
    (stszHdr.getD 3 0 ≠ co64Hdr.getD 2 0 →
      buildFrames stszHdr stszLst co64Hdr co64Lst
        = .error "Inconsistent number of entried in STSZ & CO64") ∧
    (∀ N, stszHdr.getD 3 0 = N → co64Hdr.getD 2 0 = N →
      N ≤ stszLst.length → N ≤ co64Lst.length →
      buildFrames stszHdr stszLst co64Hdr co64Lst
        = .ok ((List.range N).map (fun i =>
            ((co64Lst.getD i []).getD 0 0, (stszLst.getD i []).getD 0 0)))) := by
  constructor
  · intro hne
    simp only [buildFrames]
    rw [if_pos hne]
  · intro N hs hc hls hlc
    simp only [buildFrames, hs, hc]
    rw [if_neg (by omega : ¬N ≠ N),
      framesLoop_ok stszLst co64Lst N 0 (by omega) (by omega),
      List.range_eq_range' N]

/-- Closed witness for `C7_frame_pairing`: two entries in each table. -/
theorem C7_frame_pairing_witness :
    buildFrames [0, 0, 0, 2] [[10], [20]] [0, 0, 2] [[100], [200]]
      = .ok [(100, 10), (200, 20)] := by
  have h := (C7_frame_pairing [0, 0, 0, 2] [0, 0, 2] [[10], [20]] [[100], [200]]).2
    2 (by decide) (by decide) (by decide) (by decide)
  exact h.trans rfl

/-! ## Claim C10: frame decimation -/

/-- Python extended-slice stepping: `everyNAux l n c` returns the
elements of `l` at positions `c, c+n, c+2n, …` (`c` counts down to the
next taken element). -/
def everyNAux {α : Type} : List α → Nat → Nat → List α
  | [], _, _ => []
  | x :: t, n, 0 => x :: everyNAux t n (n - 1)
  | _ :: t, n, c + 1 => everyNAux t n c

/-- `self.frames_data = self.src.frames[start::n]` in
`BrawTimelapser.generate` (Python slice semantics for `n ≥ 1`,
`start ≥ 0`). -/
def framesPick {α : Type} (frames : List α) (n start : Nat) : List α :=
  everyNAux frames n start

/-- The claim's index-set formulation: the elements whose index `i`
satisfies `i ∈ {s, s+n, s+2n, …} ∩ [0, N)`, in ascending index order. -/
def specSelect {α : Type} (l : List α) (s n : Nat) : List α :=
  (List.range l.length).filterMap
    (fun i => if s ≤ i ∧ (i - s) % n = 0 then l[i]? else none)

theorem succ_mod_iff (n j : Nat) (hn : 1 ≤ n) :
    ((j + 1) % n = 0) ↔ (n - 1 ≤ j ∧ (j - (n - 1)) % n = 0) := by
  constructor
  · intro h
    have hd : n ∣ j + 1 := Nat.dvd_of_mod_eq_zero h
    have hge : n ≤ j + 1 := Nat.le_of_dvd (by omega) hd
    refine ⟨by omega, ?_⟩
    have he : j - (n - 1) = j + 1 - n := by omega
    rw [he]
    exact Nat.mod_eq_zero_of_dvd (Nat.dvd_sub' hd (dvd_refl n))
  · rintro ⟨hle, hmod⟩
    have hd : n ∣ j - (n - 1) := Nat.dvd_of_mod_eq_zero hmod
    have he : j + 1 = (j - (n - 1)) + n := by omega
    rw [he, Nat.add_mod_right]
    exact hmod

theorem specSelect_cons_succ {α : Type} (x : α) (t : List α) (s n : Nat) :
    specSelect (x :: t) (s + 1) n = specSelect t s n := by
  simp only [specSelect, List.length_cons, List.range_succ_eq_map,
    List.filterMap_cons, List.filterMap_map]
  rw [if_neg (by omega)]
  refine List.filterMap_congr ?_
  intro i _
  simp [Function.comp, Nat.succ_sub_succ, Nat.add_le_add_iff_right]

theorem specSelect_cons_zero {α : Type} (x : α) (t : List α) (n : Nat)
    (hn : 1 ≤ n) :
    specSelect (x :: t) 0 n = x :: specSelect t (n - 1) n := by
  simp only [specSelect, List.length_cons, List.range_succ_eq_map,
    List.filterMap_cons, List.filterMap_map]
  rw [if_pos ⟨Nat.le_refl 0, by simp⟩]
  simp only [List.getElem?_cons_zero, Option.some.injEq]
  congr 1
  refine List.filterMap_congr ?_
  intro i _
  simp only [Function.comp, List.getElem?_cons_succ, Nat.zero_le, true_and,
    Nat.sub_zero]
  rw [if_congr (Iff.trans (by simp) (succ_mod_iff n i hn)) rfl rfl]

theorem everyNAux_eq_specSelect {α : Type} (n : Nat) (hn : 1 ≤ n) :
    ∀ (l : List α) (s : Nat), everyNAux l n s = specSelect l s n := by
  intro l
  induction l with
  | nil => intro s; rfl
  | cons x t ih =>
    intro s
    cases s with
    | zero =>
      simp only [everyNAux]
      rw [ih (n - 1), specSelect_cons_zero x t n hn]
    | succ s =>
      simp only [everyNAux]
      rw [ih s, specSelect_cons_succ]

/-- C10: for stride `n ≥ 1` and start `s < n`, the frames picked by
`generate` (`frames[s::n]`) are exactly the frames whose index lies in
`{s, s+n, s+2n, …} ∩ [0, N)`, in ascending index order — no
duplicates, no reordering. -/
theorem C10_decimation {α : Type} (frames : List α) (n start : Nat)
    (hn : 1 ≤ n) (hs : start < n) :
    framesPick frames n start = specSelect frames start n :=
  everyNAux_eq_specSelect n hn frames start

/-- Closed witness for `C10_decimation`: 10 frames, stride 2, start 0
select exactly frames 0, 2, 4, 6, 8 (the spec's scenario 7). -/
theorem C10_decimation_witness :
    framesPick [0, 1, 2, 3, 4, 5, 6, 7, 8, 9] 2 0
        = specSelect [0, 1, 2, 3, 4, 5, 6, 7, 8, 9] 0 2 ∧
      framesPick [0, 1, 2, 3, 4, 5, 6, 7, 8, 9] 2 0 = [0, 2, 4, 6, 8] :=
  ⟨C10_decimation [0, 1, 2, 3, 4, 5, 6, 7, 8, 9] 2 0 (by decide) (by decide),
    by decide⟩

/-! ## Path queries and tree updates

`ContainerAtom.__getitem__` filters the direct children by type code and
picks the i-th match.  The Python rebuilder then mutates the returned
child in place; in the pure embedding an update is re-threaded through
the tree (`updatePath` rebuilds the container with the i-th match
replaced). -/

/-- Number of direct children with type code `k` (`len(m)` for
`m = [c for c in self.children if c.AID == key]`). -/
def countMatch : List AtomNode → Nat → Nat
  | [], _ => 0
  | c :: t, k => (if aidOf c = k then 1 else 0) + countMatch t k

/-- The i-th direct child with type code `k` (`m[i]`). -/
def getMatch : List AtomNode → Nat → Nat → Option AtomNode
  | [], _, _ => none
  | c :: t, k, i =>
    if aidOf c = k then
      match i with
      | 0 => some c
      | i + 1 => getMatch t k i
    else getMatch t k i

/-- Replace the i-th child with type code `k` by `x` (the pure image of
mutating `m[i]` in place). -/
def setMatch : List AtomNode → Nat → Nat → AtomNode → List AtomNode
  | [], _, _, _ => []
  | c :: t, k, i, x =>
    if aidOf c = k then
      match i with
      | 0 => x :: t
      | i + 1 => c :: setMatch t k i x
    else c :: setMatch t k i x

/-- Remove the i-th child with type code `k`
(`self.children.remove(m[i])`; `list.remove` deletes the first list
entry identical to the object, which is this occurrence). -/
def delMatch : List AtomNode → Nat → Nat → List AtomNode
  | [], _, _ => []
  | c :: t, k, i =>
    if aidOf c = k then
      match i with
      | 0 => t
      | i + 1 => c :: delMatch t k i
    else c :: delMatch t k i

theorem getMatch_isSome {cs : List AtomNode} {k i : Nat} :
    (getMatch cs k i).isSome ↔ i < countMatch cs k := by
  induction cs generalizing i with
  | nil => simp [getMatch, countMatch]
  | cons c t ih =>
    by_cases hc : aidOf c = k
    · cases i with
      | zero => simp [getMatch, countMatch, hc]
      | succ i => simp [getMatch, countMatch, hc, ih]; omega
    · simp [getMatch, countMatch, hc, ih]

theorem getMatch_aid {cs : List AtomNode} {k i : Nat} {c : AtomNode}
    (h : getMatch cs k i = some c) : aidOf c = k := by
  induction cs generalizing i with
  | nil => simp [getMatch] at h
  | cons d t ih =>
    by_cases hd : aidOf d = k
    · cases i with
      | zero =>
        simp [getMatch, hd] at h
        rw [← h]; exact hd
      | succ i =>
        simp [getMatch, hd] at h
        exact ih h
    · simp [getMatch, hd] at h
      exact ih h

theorem getMatch_setMatch_self {cs : List AtomNode} {k i : Nat} {c x : AtomNode}
    (h : getMatch cs k i = some c) (hx : aidOf x = k) :
    getMatch (setMatch cs k i x) k i = some x := by
  induction cs generalizing i with
  | nil => simp [getMatch] at h
  | cons d t ih =>
    by_cases hd : aidOf d = k
    · cases i with
      | zero => simp [getMatch, setMatch, hd, hx]
      | succ i =>
        simp only [getMatch, setMatch, if_pos hd] at h ⊢
        exact ih h
    · simp only [getMatch, setMatch, if_neg hd] at h ⊢
      exact ih h

theorem getMatch_setMatch_ne {cs : List AtomNode} {k i j : Nat} {x : AtomNode}
    (hx : aidOf x = k) (hne : j ≠ i) :
    getMatch (setMatch cs k i x) k j = getMatch cs k j := by
  induction cs generalizing i j with
  | nil => simp [setMatch]
  | cons d t ih =>
    by_cases hd : aidOf d = k
    · cases i with
      | zero =>
        cases j with
        | zero => omega
        | succ j => simp [getMatch, setMatch, hd, hx]
      | succ i =>
        cases j with
        | zero => simp [getMatch, setMatch, hd]
        | succ j =>
          simp only [getMatch, setMatch, if_pos hd]
          exact ih (by omega)
    · simp only [getMatch, setMatch, if_neg hd]
      exact ih hne

theorem getMatch_setMatch_other {k k' : Nat} {x : AtomNode}
    (hx : aidOf x = k) (hne : k' ≠ k) :
    ∀ (cs : List AtomNode) (i j : Nat),
      getMatch (setMatch cs k i x) k' j = getMatch cs k' j := by
  intro cs
  induction cs with
  | nil => intro i j; simp [setMatch]
  | cons d t ih =>
    intro i j
    by_cases hd : aidOf d = k
    · have hd' : ¬aidOf d = k' := by rw [hd]; omega
      cases i with
      | zero =>
        have hx' : ¬aidOf x = k' := by rw [hx]; omega
        simp only [setMatch, if_pos hd, getMatch, if_neg hd', if_neg hx']
      | succ i =>
        simp only [setMatch, if_pos hd, getMatch, if_neg hd']
        exact ih i j
    · by_cases hd' : aidOf d = k'
      · simp only [setMatch, if_neg hd, getMatch, if_pos hd']
        cases j with
        | zero => rfl
        | succ j => exact ih i j
      · simp only [setMatch, if_neg hd, getMatch, if_neg hd']
        exact ih i j

theorem countMatch_setMatch {k k' : Nat} {x : AtomNode} (hx : aidOf x = k) :
    ∀ (cs : List AtomNode) (i : Nat),
      countMatch (setMatch cs k i x) k' = countMatch cs k' := by
  intro cs
  induction cs with
  | nil => intro i; simp [setMatch]
  | cons d t ih =>
    intro i
    by_cases hd : aidOf d = k
    · cases i with
      | zero =>
        have hif : (if aidOf x = k' then 1 else 0) = (if aidOf d = k' then 1 else 0) := by
          rw [hx, hd]
        simp only [setMatch, if_pos hd, countMatch, hif]
      | succ i =>
        simp only [setMatch, if_pos hd, countMatch, ih i]
    · simp only [setMatch, if_neg hd, countMatch, ih i]

theorem countMatch_delMatch_self :
    ∀ (cs : List AtomNode) (k i : Nat), i < countMatch cs k →
      countMatch (delMatch cs k i) k = countMatch cs k - 1 := by
  intro cs
  induction cs with
  | nil => intro k i h; simp [countMatch] at h
  | cons d t ih =>
    intro k i h
    by_cases hd : aidOf d = k
    · cases i with
      | zero => simp [delMatch, countMatch, hd]
      | succ i =>
        simp only [countMatch, if_pos hd] at h
        simp only [delMatch, if_pos hd, countMatch, if_pos hd, ih k i (by omega)]
        omega
    · simp only [countMatch, if_neg hd] at h
      simp only [delMatch, if_neg hd, countMatch, if_neg hd, ih k i (by omega)]
      omega

theorem countMatch_delMatch_other {k k' : Nat} (hne : k' ≠ k) :
    ∀ (cs : List AtomNode) (i : Nat),
      countMatch (delMatch cs k i) k' = countMatch cs k' := by
  intro cs
  induction cs with
  | nil => intro i; simp [delMatch]
  | cons d t ih =>
    intro i
    by_cases hd : aidOf d = k
    · have hd' : ¬aidOf d = k' := by rw [hd]; omega
      cases i with
      | zero =>
        simp [delMatch, countMatch, hd, hd']
        omega
      | succ i =>
        simp only [delMatch, if_pos hd, countMatch, if_neg hd', ih i]
    · simp only [delMatch, if_neg hd, countMatch, ih i]

theorem getMatch_delMatch_other {k k' : Nat} (hne : k' ≠ k) :
    ∀ (cs : List AtomNode) (i j : Nat),
      getMatch (delMatch cs k i) k' j = getMatch cs k' j := by
  intro cs
  induction cs with
  | nil => intro i j; simp [delMatch]
  | cons d t ih =>
    intro i j
    by_cases hd : aidOf d = k
    · have hd' : ¬aidOf d = k' := by rw [hd]; omega
      cases i with
      | zero =>
        simp [delMatch, getMatch, hd, hd']
        rw [if_neg (show ¬k = k' by omega)]
      | succ i => simp only [delMatch, if_pos hd, getMatch, if_neg hd', ih i j]
    · by_cases hd' : aidOf d = k'
      · simp only [delMatch, if_neg hd, getMatch, if_pos hd']
        cases j with
        | zero => rfl
        | succ j => exact ih i j
      · simp only [delMatch, if_neg hd, getMatch, if_neg hd', ih i j]

theorem getMatch_delMatch_lt :
    ∀ (cs : List AtomNode) (k i j : Nat), j < i →
      getMatch (delMatch cs k i) k j = getMatch cs k j := by
  intro cs
  induction cs with
  | nil => intro k i j _; simp [delMatch]
  | cons d t ih =>
    intro k i j hji
    by_cases hd : aidOf d = k
    · cases i with
      | zero => omega
      | succ i =>
        cases j with
        | zero => simp [delMatch, getMatch, hd]
        | succ j =>
          simp only [delMatch, if_pos hd, getMatch, if_pos hd]
          exact ih k i j (by omega)
    · simp only [delMatch, if_neg hd, getMatch, if_neg hd]
      exact ih k i j hji

theorem getMatch_delMatch_ge :
    ∀ (cs : List AtomNode) (k i j : Nat), i ≤ j →
      getMatch (delMatch cs k i) k j = getMatch cs k (j + 1) := by
  intro cs
  induction cs with
  | nil => intro k i j _; simp [delMatch, getMatch]
  | cons d t ih =>
    intro k i j hij
    by_cases hd : aidOf d = k
    · cases i with
      | zero => simp [delMatch, getMatch, hd]
      | succ i =>
        cases j with
        | zero => omega
        | succ j =>
          simp only [delMatch, if_pos hd, getMatch, if_pos hd]
          exact ih k i j (by omega)
    · simp only [delMatch, if_neg hd, getMatch, if_neg hd]
      exact ih k i j hij

/-- The index checks of `ContainerAtom.__getitem__`: no match is a
`KeyError`; several matches with no index is a `KeyError`; an explicit
index past the matches is a `KeyError`; otherwise the used index is
`idx or 0`. -/
def segIdx (cs : List AtomNode) (k : Nat) (idx : Option Nat) :
    Except String Nat :=
  if countMatch cs k = 0 then .error "No such key"
  else
    match idx with
    | none =>
      if 1 < countMatch cs k then .error "Multiple key and no index provided"
      else .ok 0
    | some i => if countMatch cs k ≤ i then .error "Invalid index" else .ok i

/-- `ContainerAtom.__getitem__` composed along a path of
(type code, optional index) segments; a query on a non-container is
Python's `TypeError`. -/
def queryPath : AtomNode → List (Nat × Option Nat) → Except String AtomNode
  | a, [] => .ok a
  | .container _ cs, (k, idx) :: rest =>
    match segIdx cs k idx with
    | .error e => .error e
    | .ok i =>
      match getMatch cs k i with
      | some c => queryPath c rest
      | none => .error "Invalid index"
  | _, _ :: _ => .error "TypeError"

/-- Apply `f` to the node reached through the same resolution as
`queryPath` and rebuild the tree around the result — the pure image of
the rebuilder mutating the queried child in place. -/
def updatePath : AtomNode → List (Nat × Option Nat) →
    (AtomNode → Except String AtomNode) → Except String AtomNode
  | a, [], f => f a
  | .container aid cs, (k, idx) :: rest, f =>
    match segIdx cs k idx with
    | .error e => .error e
    | .ok i =>
      match getMatch cs k i with
      | some c =>
        match updatePath c rest f with
        | .ok c' => .ok (.container aid (setMatch cs k i c'))
        | .error e => .error e
      | none => .error "Invalid index"
  | _, _ :: _, _ => .error "TypeError"

/-- `f` preserves the type code of the node it rewrites (true of every
edit `build_metadata` performs). -/
def AidPres (f : AtomNode → Except String AtomNode) : Prop :=
  ∀ x y, f x = .ok y → aidOf y = aidOf x

theorem segIdx_ok_getD {cs : List AtomNode} {k : Nat} {idx : Option Nat} {i : Nat}
    (h : segIdx cs k idx = .ok i) : i = idx.getD 0 ∧ i < countMatch cs k := by
  unfold segIdx at h
  split at h
  · simp at h
  · rename_i h0
    split at h
    · split at h
      · simp at h
      · rename_i h1
        simp only [Except.ok.injEq] at h
        subst h
        exact ⟨rfl, by omega⟩
    · rename_i j
      split at h
      · simp at h
      · rename_i h1
        simp only [Except.ok.injEq] at h
        subst h
        exact ⟨rfl, by omega⟩

theorem segIdx_congr {cs cs' : List AtomNode} {k : Nat} {idx : Option Nat}
    (hc : countMatch cs' k = countMatch cs k) :
    segIdx cs' k idx = segIdx cs k idx := by
  unfold segIdx
  rw [hc]

theorem updatePath_aid {f : AtomNode → Except String AtomNode} (hf : AidPres f) :
    ∀ (p : List (Nat × Option Nat)) (a a' : AtomNode),
      updatePath a p f = .ok a' → aidOf a' = aidOf a := by
  intro p
  induction p with
  | nil =>
    intro a a' h
    rw [show updatePath a [] f = f a by cases a <;> rfl] at h
    exact hf a a' h
  | cons seg rest ih =>
    intro a a' h
    match a with
    | .leaf _ _ => simp [updatePath] at h
    | .decoded _ _ _ => simp [updatePath] at h
    | .container aid cs =>
      obtain ⟨k, idx⟩ := seg
      simp only [updatePath] at h
      split at h
      · simp at h
      · rename_i i hseg
        split at h
        · rename_i c hget
          split at h
          · rename_i c' hup
            simp only [Except.ok.injEq] at h
            subst h
            rfl
          · simp at h
        · simp at h

theorem updatePath_nil (a : AtomNode) (f : AtomNode → Except String AtomNode) :
    updatePath a [] f = f a := by
  cases a <;> rfl

theorem queryPath_nil (a : AtomNode) : queryPath a [] = .ok a := by
  cases a <;> rfl

theorem updatePath_query {f : AtomNode → Except String AtomNode} (hf : AidPres f) :
    ∀ (p : List (Nat × Option Nat)) (a a' : AtomNode),
      updatePath a p f = .ok a' →
      ∃ t t', queryPath a p = .ok t ∧ f t = .ok t' ∧ queryPath a' p = .ok t' := by
  intro p
  induction p with
  | nil =>
    intro a a' h
    rw [updatePath_nil] at h
    exact ⟨a, a', queryPath_nil a, h, queryPath_nil a'⟩
  | cons seg rest ih =>
    intro a a' h
    match a with
    | .leaf _ _ => simp [updatePath] at h
    | .decoded _ _ _ => simp [updatePath] at h
    | .container aid cs =>
      obtain ⟨k, idx⟩ := seg
      simp only [updatePath] at h
      split at h
      · simp at h
      · rename_i i hseg
        split at h
        · rename_i c hget
          split at h
          · rename_i c' hup
            simp only [Except.ok.injEq] at h
            subst h
            obtain ⟨t, t', hq, hft, hq'⟩ := ih c c' hup
            have hac : aidOf c = k := getMatch_aid hget
            have hac' : aidOf c' = k := by
              rw [updatePath_aid hf rest c c' hup, hac]
            refine ⟨t, t', ?_, hft, ?_⟩
            · simp only [queryPath, hseg, hget, hq]
            · have hcnt : ∀ k', countMatch (setMatch cs k i c') k' = countMatch cs k' :=
                fun k' => countMatch_setMatch hac' cs i
            
              have hseg' : segIdx (setMatch cs k i c') k idx = .ok i := by
                rw [segIdx_congr (hcnt k)]
                exact hseg
              have hget' : getMatch (setMatch cs k i c') k i = some c' :=
                getMatch_setMatch_self hget hac'
              simp only [queryPath, hseg', hget', hq']
          · simp at h
        · simp at h

/-- Two paths that resolve identically for some prefix and then pick
different children (different type code or different resolved index). -/
inductive Diverge : List (Nat × Option Nat) → List (Nat × Option Nat) → Prop
  | head {k k' : Nat} {i i' : Option Nat} {p q : List (Nat × Option Nat)} :
      (k ≠ k' ∨ i.getD 0 ≠ i'.getD 0) → Diverge ((k, i) :: p) ((k', i') :: q)
  | cons {k k' : Nat} {i i' : Option Nat} {p q : List (Nat × Option Nat)} :
      k = k' → i.getD 0 = i'.getD 0 → Diverge p q →
      Diverge ((k, i) :: p) ((k', i') :: q)

theorem updatePath_query_diverge {f : AtomNode → Except String AtomNode}
    (hf : AidPres f) :
    ∀ {p q : List (Nat × Option Nat)}, Diverge p q →
      ∀ {a a' : AtomNode}, updatePath a p f = .ok a' →
        queryPath a' q = queryPath a q := by
  intro p q hd
  induction hd with
  | @head k k' i i' p q hne =>
    intro a a' h
    match a with
    | .leaf _ _ => simp [updatePath] at h
    | .decoded _ _ _ => simp [updatePath] at h
    | .container aid cs =>
      simp only [updatePath] at h
      split at h
      · simp at h
      · rename_i i0 hseg
        split at h
        · rename_i c hget
          split at h
          · rename_i c' hup
            simp only [Except.ok.injEq] at h
            subst h
            have hac : aidOf c = k := getMatch_aid hget
            have hac' : aidOf c' = k := by
              rw [updatePath_aid hf p c c' hup, hac]
            have hcnt : countMatch (setMatch cs k i0 c') k' = countMatch cs k' :=
              countMatch_setMatch hac' cs i0
            cases hseg' : segIdx cs k' i' with
            | error e => simp only [queryPath, segIdx_congr hcnt, hseg']
            | ok j0 =>
              obtain ⟨hj0, hjlt⟩ := segIdx_ok_getD hseg'
              obtain ⟨hi0, hilt⟩ := segIdx_ok_getD hseg
              have hget' : getMatch (setMatch cs k i0 c') k' j0 = getMatch cs k' j0 := by
                by_cases hkk : k' = k
                · subst hkk
                  exact getMatch_setMatch_ne hac' (by
                    rcases hne with hne | hne
                    · omega
                    · omega)
                · exact getMatch_setMatch_other hac' hkk cs i0 j0
              simp only [queryPath, segIdx_congr hcnt, hseg', hget']
          · simp at h
        · simp at h
  | @cons k k' i i' p q hk hi hdpq ih =>
    intro a a' h
    match a with
    | .leaf _ _ => simp [updatePath] at h
    | .decoded _ _ _ => simp [updatePath] at h
    | .container aid cs =>
      subst hk
      simp only [updatePath] at h
      split at h
      · simp at h
      · rename_i i0 hseg
        split at h
        · rename_i c hget
          split at h
          · rename_i c' hup
            simp only [Except.ok.injEq] at h
            subst h
            have hac : aidOf c = k := getMatch_aid hget
            have hac' : aidOf c' = k := by
              rw [updatePath_aid hf p c c' hup, hac]
            have hcnt : countMatch (setMatch cs k i0 c') k = countMatch cs k :=
              countMatch_setMatch hac' cs i0
            cases hseg' : segIdx cs k i' with
            | error e => simp only [queryPath, segIdx_congr hcnt, hseg']
            | ok j0 =>
              obtain ⟨hj0, hjlt⟩ := segIdx_ok_getD hseg'
              obtain ⟨hi0, hilt⟩ := segIdx_ok_getD hseg
              have hji : j0 = i0 := by rw [hj0, hi0, hi]
              subst hji
              simp only [queryPath, segIdx_congr hcnt, hseg',
                getMatch_setMatch_self hget hac', hget]
              exact ih hup
          · simp at h
        · simp at h

theorem updatePath_top_counts {f : AtomNode → Except String AtomNode}
    (hf : AidPres f) {aid : Nat} {cs : List AtomNode}
    {seg : Nat × Option Nat} {rest : List (Nat × Option Nat)} {a' : AtomNode}
    (h : updatePath (.container aid cs) (seg :: rest) f = .ok a') :
    ∃ cs', a' = .container aid cs' ∧
      ∀ k', countMatch cs' k' = countMatch cs k' := by
  obtain ⟨k, idx⟩ := seg
  simp only [updatePath] at h
  split at h
  · simp at h
  · rename_i i hseg
    split at h
    · rename_i c hget
      split at h
      · rename_i c' hup
        simp only [Except.ok.injEq] at h
        subst h
        have hac' : aidOf c' = k := by
          rw [updatePath_aid hf rest c c' hup, getMatch_aid hget]
        exact ⟨_, rfl, fun k' => countMatch_setMatch hac' cs i⟩
      · simp at h
    · simp at h

theorem queryPath_delMatch_trak {aid : Nat} {cs : List AtomNode} {k a j : Nat}
    (rest : List (Nat × Option Nat))
    (hac : a < countMatch cs k) (hjc : j < countMatch cs k) (hja : j ≠ a) :
    queryPath (.container aid (delMatch cs k a))
        ((k, some (if a < j then j - 1 else j)) :: rest)
      = queryPath (.container aid cs) ((k, some j) :: rest) := by
  have hcnt : countMatch (delMatch cs k a) k = countMatch cs k - 1 :=
    countMatch_delMatch_self cs k a hac
  have hseg : segIdx cs k (some j) = .ok j := by
    simp only [segIdx]
    rw [if_neg (by omega), if_neg (by omega)]
  by_cases haj : a < j
  · rw [if_pos haj]
    have hseg' : segIdx (delMatch cs k a) k (some (j - 1)) = .ok (j - 1) := by
      simp only [segIdx]
      rw [hcnt, if_neg (by omega), if_neg (by omega)]
    have hget' : getMatch (delMatch cs k a) k (j - 1) = getMatch cs k j := by
      rw [getMatch_delMatch_ge cs k a (j - 1) (by omega)]
      congr 1
      omega
    simp only [queryPath, hseg, hseg', hget']
  · rw [if_neg haj]
    have hseg' : segIdx (delMatch cs k a) k (some j) = .ok j := by
      simp only [segIdx]
      rw [hcnt, if_neg (by omega), if_neg (by omega)]
    have hget' : getMatch (delMatch cs k a) k j = getMatch cs k j :=
      getMatch_delMatch_lt cs k a j (by omega)
    simp only [queryPath, hseg, hseg', hget']

theorem queryPath_delMatch_other {aid : Nat} {cs : List AtomNode} {k a k' : Nat}
    {idx : Option Nat} (rest : List (Nat × Option Nat)) (hkk : k' ≠ k) :
    queryPath (.container aid (delMatch cs k a)) ((k', idx) :: rest)
      = queryPath (.container aid cs) ((k', idx) :: rest) := by
  have hcnt : countMatch (delMatch cs k a) k' = countMatch cs k' :=
    countMatch_delMatch_other hkk cs a
  cases hseg : segIdx cs k' idx with
  | error e => simp only [queryPath, segIdx_congr hcnt, hseg]
  | ok j =>
    simp only [queryPath, segIdx_congr hcnt, hseg,
      getMatch_delMatch_other hkk cs a j]

/-! ## Claim C5: track classification -/

/-- What the classification loop of `BrawReader.parse` does with one
child: not a trak at all (no `idx` increase); trak whose
`c['mdia/minf']` query raises (caught by the bare `except:`, skipped);
video / audio / timecode marker (the `vmhd` / `smhd` / `gmhd`
`elif`-chain); trak with none of the markers; or a trak whose resolved
`minf` is not a container, on which `'vmhd' in minf` raises an uncaught
TypeError (impossible for parse-produced trees, where `minf` is always
a registered container type). -/
inductive TrakKind where
  | notTrak : TrakKind
  | skip : TrakKind
  | vid : TrakKind
  | aud : TrakKind
  | tim : TrakKind
  | other : TrakKind
  | crash : TrakKind
deriving DecidableEq, Repr

def trakKindOf (c : AtomNode) : TrakKind :=
  if aidOf c ≠ K_TRAK then .notTrak
  else
    match queryPath c [(K_MDIA, none), (K_MINF, none)] with
    | .error _ => .skip
    | .ok minf =>
      match minf with
      | .container _ mcs =>
        if 0 < countMatch mcs K_VMHD then .vid
        else if 0 < countMatch mcs K_SMHD then .aud
        else if 0 < countMatch mcs K_GMHD then .tim
        else .other
      | _ => .crash

/-- The `for c in self.md_atom.children` classification loop of
`BrawReader.parse`, carrying `idx` and the three `-1`-initialized track
indices. -/
def classifyLoop : List AtomNode → Nat → Int → Int → Int →
    Except String (Int × Int × Int)
  | [], _, v, a, t => .ok (v, a, t)
  | c :: cs, idx, v, a, t =>
    if aidOf c ≠ K_TRAK then classifyLoop cs idx v a t
    else
      match queryPath c [(K_MDIA, none), (K_MINF, none)] with
      | .error _ => classifyLoop cs (idx + 1) v a t
      | .ok minf =>
        match minf with
        | .container _ mcs =>
          if 0 < countMatch mcs K_VMHD then
            if v = -1 then classifyLoop cs (idx + 1) (Int.ofNat idx) a t
            else .error "Multiple video tracks"
          else if 0 < countMatch mcs K_SMHD then
            if a = -1 then classifyLoop cs (idx + 1) v (Int.ofNat idx) t
            else .error "Multiple audio tracks"
          else if 0 < countMatch mcs K_GMHD then
            if t = -1 then classifyLoop cs (idx + 1) v a (Int.ofNat idx)
            else .error "Multiple timecode tracks"
          else classifyLoop cs (idx + 1) v a t
        | _ => .error "TypeError"

/-- The loop plus the two `== -1` checks that follow it in
`BrawReader.parse` (`'Missing video track'` / `'Missing timecode
track'`). -/
def classifyTracks (children : List AtomNode) : Except String (Int × Int × Int) :=
  match classifyLoop children 0 (-1) (-1) (-1) with
  | .error e => .error e
  | .ok (v, a, t) =>
    if v = -1 then .error "Missing video track"
    else if t = -1 then .error "Missing timecode track"
    else .ok (v, a, t)

/-- Number of children the loop classifies as `kd`. -/
def cntKind (cs : List AtomNode) (kd : TrakKind) : Nat :=
  cs.countP (fun c => trakKindOf c == kd)

def exceptOk {ε α : Type} : Except ε α → Bool
  | .ok _ => true
  | .error _ => false

theorem classifyLoop_cons (c : AtomNode) (cs : List AtomNode) (idx : Nat)
    (v a t : Int) :
    classifyLoop (c :: cs) idx v a t =
      match trakKindOf c with
      | .notTrak => classifyLoop cs idx v a t
      | .skip => classifyLoop cs (idx + 1) v a t
      | .vid =>
        if v = -1 then classifyLoop cs (idx + 1) (Int.ofNat idx) a t
        else .error "Multiple video tracks"
      | .aud =>
        if a = -1 then classifyLoop cs (idx + 1) v (Int.ofNat idx) t
        else .error "Multiple audio tracks"
      | .tim =>
        if t = -1 then classifyLoop cs (idx + 1) v a (Int.ofNat idx)
        else .error "Multiple timecode tracks"
      | .other => classifyLoop cs (idx + 1) v a t
      | .crash => .error "TypeError" := by
  by_cases hk : aidOf c ≠ K_TRAK
  · simp only [classifyLoop, trakKindOf, if_pos hk]
  · simp only [classifyLoop, trakKindOf, if_neg hk]
    cases hq : queryPath c [(K_MDIA, none), (K_MINF, none)] with
    | error e => rfl
    | ok minf =>
      cases minf with
      | container maid mcs =>
        by_cases h1 : 0 < countMatch mcs K_VMHD
        · simp only [if_pos h1]
        · by_cases h2 : 0 < countMatch mcs K_SMHD
          · simp only [if_neg h1, if_pos h2]
          · by_cases h3 : 0 < countMatch mcs K_GMHD
            · simp only [if_neg h1, if_neg h2, if_pos h3]
            · simp only [if_neg h1, if_neg h2, if_neg h3]
      | leaf la ld => rfl
      | decoded da dh dl => rfl

/-- 0 when a track index is still unassigned (-1), else 1. -/
def chk (x : Int) : Nat := if x = -1 then 0 else 1

theorem chk_le (x : Int) : chk x ≤ 1 := by
  unfold chk
  split <;> omega

theorem classifyLoop_isOk :
    ∀ (cs : List AtomNode) (idx : Nat) (v a t : Int),
      (∀ c ∈ cs, trakKindOf c ≠ .crash) →
      (exceptOk (classifyLoop cs idx v a t) = true ↔
        (cntKind cs .vid + chk v ≤ 1 ∧ cntKind cs .aud + chk a ≤ 1 ∧
         cntKind cs .tim + chk t ≤ 1)) := by
  intro cs
  induction cs with
  | nil =>
    intro idx v a t _
    simp only [classifyLoop, exceptOk, cntKind, List.countP_nil, Nat.zero_add]
    constructor
    · intro _
      exact ⟨chk_le v, chk_le a, chk_le t⟩
    · intro _
      trivial
  | cons c cs ih =>
    intro idx v a t hnc
    have hncs : ∀ x ∈ cs, trakKindOf x ≠ .crash := fun x hx => hnc x (by simp [hx])
    have hc : trakKindOf c ≠ .crash := hnc c (by simp)
    rw [classifyLoop_cons]
    cases hkind : trakKindOf c with
    | notTrak =>
      have e1 : cntKind (c :: cs) .vid = cntKind cs .vid := by
        simp [cntKind, List.countP_cons, hkind]
      have e2 : cntKind (c :: cs) .aud = cntKind cs .aud := by
        simp [cntKind, List.countP_cons, hkind]
      have e3 : cntKind (c :: cs) .tim = cntKind cs .tim := by
        simp [cntKind, List.countP_cons, hkind]
      rw [e1, e2, e3, ih idx v a t hncs]
    | skip =>
      have e1 : cntKind (c :: cs) .vid = cntKind cs .vid := by
        simp [cntKind, List.countP_cons, hkind]
      have e2 : cntKind (c :: cs) .aud = cntKind cs .aud := by
        simp [cntKind, List.countP_cons, hkind]
      have e3 : cntKind (c :: cs) .tim = cntKind cs .tim := by
        simp [cntKind, List.countP_cons, hkind]
      rw [e1, e2, e3, ih (idx + 1) v a t hncs]
    | other =>
      have e1 : cntKind (c :: cs) .vid = cntKind cs .vid := by
        simp [cntKind, List.countP_cons, hkind]
      have e2 : cntKind (c :: cs) .aud = cntKind cs .aud := by
        simp [cntKind, List.countP_cons, hkind]
      have e3 : cntKind (c :: cs) .tim = cntKind cs .tim := by
        simp [cntKind, List.countP_cons, hkind]
      rw [e1, e2, e3, ih (idx + 1) v a t hncs]
    | vid =>
      have e1 : cntKind (c :: cs) .vid = cntKind cs .vid + 1 := by
        simp [cntKind, List.countP_cons, hkind]
      have e2 : cntKind (c :: cs) .aud = cntKind cs .aud := by
        simp [cntKind, List.countP_cons, hkind]
      have e3 : cntKind (c :: cs) .tim = cntKind cs .tim := by
        simp [cntKind, List.countP_cons, hkind]
      rw [e1, e2, e3]
      by_cases hv : v = -1
      · rw [if_pos hv, ih (idx + 1) (Int.ofNat idx) a t hncs]
        have h1 : chk (Int.ofNat idx) = 1 := by
          unfold chk
          rw [if_neg (show ¬(Int.ofNat idx = -1) by simp [Int.ofNat_eq_natCast])]
        have h0 : chk v = 0 := by
          unfold chk
          rw [if_pos hv]
        rw [h1, h0]
      · rw [if_neg hv]
        have h1 : chk v = 1 := by
          unfold chk
          rw [if_neg hv]
        rw [h1]
        simp only [exceptOk]
        constructor
        · intro hfalse
          simp at hfalse
        · intro hcc
          exfalso
          omega
    | aud =>
      have e1 : cntKind (c :: cs) .vid = cntKind cs .vid := by
        simp [cntKind, List.countP_cons, hkind]
      have e2 : cntKind (c :: cs) .aud = cntKind cs .aud + 1 := by
        simp [cntKind, List.countP_cons, hkind]
      have e3 : cntKind (c :: cs) .tim = cntKind cs .tim := by
        simp [cntKind, List.countP_cons, hkind]
      rw [e1, e2, e3]
      by_cases ha : a = -1
      · rw [if_pos ha, ih (idx + 1) v (Int.ofNat idx) t hncs]
        have h1 : chk (Int.ofNat idx) = 1 := by
          unfold chk
          rw [if_neg (show ¬(Int.ofNat idx = -1) by simp [Int.ofNat_eq_natCast])]
        have h0 : chk a = 0 := by
          unfold chk
          rw [if_pos ha]
        rw [h1, h0]
      · rw [if_neg ha]
        have h1 : chk a = 1 := by
          unfold chk
          rw [if_neg ha]
        rw [h1]
        simp only [exceptOk]
        constructor
        · intro hfalse
          simp at hfalse
        · intro hcc
          exfalso
          omega
    | tim =>
      have e1 : cntKind (c :: cs) .vid = cntKind cs .vid := by
        simp [cntKind, List.countP_cons, hkind]
      have e2 : cntKind (c :: cs) .aud = cntKind cs .aud := by
        simp [cntKind, List.countP_cons, hkind]
      have e3 : cntKind (c :: cs) .tim = cntKind cs .tim + 1 := by
        simp [cntKind, List.countP_cons, hkind]
      rw [e1, e2, e3]
      by_cases ht : t = -1
      · rw [if_pos ht, ih (idx + 1) v a (Int.ofNat idx) hncs]
        have h1 : chk (Int.ofNat idx) = 1 := by
          unfold chk
          rw [if_neg (show ¬(Int.ofNat idx = -1) by simp [Int.ofNat_eq_natCast])]
        have h0 : chk t = 0 := by
          unfold chk
          rw [if_pos ht]
        rw [h1, h0]
      · rw [if_neg ht]
        have h1 : chk t = 1 := by
          unfold chk
          rw [if_neg ht]
        rw [h1]
        simp only [exceptOk]
        constructor
        · intro hfalse
          simp at hfalse
        · intro hcc
          exfalso
          omega
    | crash => exact absurd hkind hc

theorem classifyLoop_ok_neg :
    ∀ (cs : List AtomNode) (idx : Nat) (v a t v' a' t' : Int),
      classifyLoop cs idx v a t = .ok (v', a', t') →
      ((v' = -1 ↔ (v = -1 ∧ cntKind cs .vid = 0)) ∧
       (t' = -1 ↔ (t = -1 ∧ cntKind cs .tim = 0))) := by
  intro cs
  induction cs with
  | nil =>
    intro idx v a t v' a' t' h
    simp only [classifyLoop, Except.ok.injEq, Prod.mk.injEq] at h
    obtain ⟨hv, -, ht⟩ := h
    subst hv
    subst ht
    simp [cntKind]
  | cons c cs ih =>
    intro idx v a t v' a' t' h
    rw [classifyLoop_cons] at h
    cases hkind : trakKindOf c <;> rw [hkind] at h
    · have e1 : cntKind (c :: cs) .vid = cntKind cs .vid := by
        simp [cntKind, List.countP_cons, hkind]
      have e3 : cntKind (c :: cs) .tim = cntKind cs .tim := by
        simp [cntKind, List.countP_cons, hkind]
      rw [e1, e3]
      exact ih idx v a t v' a' t' h
    · have e1 : cntKind (c :: cs) .vid = cntKind cs .vid := by
        simp [cntKind, List.countP_cons, hkind]
      have e3 : cntKind (c :: cs) .tim = cntKind cs .tim := by
        simp [cntKind, List.countP_cons, hkind]
      rw [e1, e3]
      exact ih (idx + 1) v a t v' a' t' h
    · have e1 : cntKind (c :: cs) .vid = cntKind cs .vid + 1 := by
        simp [cntKind, List.countP_cons, hkind]
      have e3 : cntKind (c :: cs) .tim = cntKind cs .tim := by
        simp [cntKind, List.countP_cons, hkind]
      rw [e1, e3]
      by_cases hv : v = -1
      · rw [if_pos hv] at h
        have hih := ih (idx + 1) (Int.ofNat idx) a t v' a' t' h
        constructor
        · rw [hih.1]
          constructor
          · rintro ⟨hfalse, -⟩
            exact absurd hfalse (by simp [Int.ofNat_eq_natCast])
          · rintro ⟨-, hfalse⟩
            omega
        · rw [hih.2]
      · rw [if_neg hv] at h
        simp at h
    · have e1 : cntKind (c :: cs) .vid = cntKind cs .vid := by
        simp [cntKind, List.countP_cons, hkind]
      have e3 : cntKind (c :: cs) .tim = cntKind cs .tim := by
        simp [cntKind, List.countP_cons, hkind]
      rw [e1, e3]
      by_cases ha : a = -1
      · rw [if_pos ha] at h
        exact ih (idx + 1) v (Int.ofNat idx) t v' a' t' h
      · rw [if_neg ha] at h
        simp at h
    · have e1 : cntKind (c :: cs) .vid = cntKind cs .vid := by
        simp [cntKind, List.countP_cons, hkind]
      have e3 : cntKind (c :: cs) .tim = cntKind cs .tim + 1 := by
        simp [cntKind, List.countP_cons, hkind]
      rw [e1, e3]
      by_cases ht : t = -1
      · rw [if_pos ht] at h
        have hih := ih (idx + 1) v a (Int.ofNat idx) v' a' t' h
        constructor
        · rw [hih.1]
        · rw [hih.2]
          constructor
          · rintro ⟨hfalse, -⟩
            exact absurd hfalse (by simp [Int.ofNat_eq_natCast])
          · rintro ⟨-, hfalse⟩
            omega
      · rw [if_neg ht] at h
        simp at h
    · have e1 : cntKind (c :: cs) .vid = cntKind cs .vid := by
        simp [cntKind, List.countP_cons, hkind]
      have e3 : cntKind (c :: cs) .tim = cntKind cs .tim := by
        simp [cntKind, List.countP_cons, hkind]
      rw [e1, e3]
      exact ih (idx + 1) v a t v' a' t' h
    · simp at h

/-- C5: track classification in `BrawReader.parse` succeeds iff there is
exactly one video trak, exactly one timecode trak, and at most one audio
trak (classification by presence of `vmhd`/`smhd`/`gmhd` under the
trak's `mdia/minf`); zero or two video traks, zero or two timecode
traks, or two audio traks raise.  The hypothesis excludes trees (not
producible by the parser) whose `minf` node is not a container, on
which the Python code crashes with an uncaught TypeError. -/
theorem C5_track_classification (children : List AtomNode)
    (hnc : ∀ c ∈ children, trakKindOf c ≠ .crash) :
    exceptOk (classifyTracks children) = true ↔
      (cntKind children .vid = 1 ∧ cntKind children .tim = 1 ∧
       cntKind children .aud ≤ 1) := by
  cases hl : classifyLoop children 0 (-1) (-1) (-1) with
  | error e =>
    have hok := classifyLoop_isOk children 0 (-1) (-1) (-1) hnc
    rw [hl] at hok
    simp only [classifyTracks, hl]
    simp only [exceptOk] at hok ⊢
    constructor
    · intro hfalse
      simp at hfalse
    · rintro ⟨h1, h2, h3⟩
      exfalso
      have := hok.mpr ⟨by simp [chk, h1], by simpa [chk] using h3, by simp [chk, h2]⟩
      simp at this
  | ok vat =>
    obtain ⟨v, a, t⟩ := vat
    simp only [classifyTracks, hl]
    have hok := classifyLoop_isOk children 0 (-1) (-1) (-1) hnc
    rw [hl] at hok
    simp only [exceptOk] at hok
    have hcnts := hok.mp trivial
    simp [chk] at hcnts
    have hneg := classifyLoop_ok_neg children 0 (-1) (-1) (-1) v a t hl
    by_cases hv : v = -1
    · rw [if_pos hv]
      have hcv : cntKind children .vid = 0 := ((hneg.1).mp hv).2
      simp only [exceptOk]
      constructor
      · intro hfalse
        simp at hfalse
      · rintro ⟨h1, -, -⟩
        omega
    · rw [if_neg hv]
      by_cases ht : t = -1
      · rw [if_pos ht]
        have hct : cntKind children .tim = 0 := ((hneg.2).mp ht).2
        simp only [exceptOk]
        constructor
        · intro hfalse
          simp at hfalse
        · rintro ⟨-, h2, -⟩
          omega
      · rw [if_neg ht]
        simp only [exceptOk, true_iff]
        have hcv : cntKind children .vid ≠ 0 := by
          intro h0
          exact hv ((hneg.1).mpr ⟨rfl, h0⟩)
        have hct : cntKind children .tim ≠ 0 := by
          intro h0
          exact ht ((hneg.2).mpr ⟨rfl, h0⟩)
        refine ⟨by omega, by omega, by omega⟩

/-- Video and timecode trak samples used by the closed C5 witness. -/
def c5TrakV : AtomNode :=
  .container K_TRAK [.container K_MDIA [.container K_MINF [.leaf K_VMHD []]]]

def c5TrakT : AtomNode :=
  .container K_TRAK [.container K_MDIA [.container K_MINF [.container K_GMHD []]]]

/-- Closed witness for `C5_track_classification`: one video trak and one
timecode trak classify successfully. -/
theorem C5_track_classification_witness :
    exceptOk (classifyTracks [c5TrakV, c5TrakT]) = true :=
  (C5_track_classification [c5TrakV, c5TrakT] (by decide)).mpr (by decide)

/-! ## Claims C8 and C9: BrawTimelapser.build_metadata -/

/-- `node.update(field=v)` for a header field at index `i` of the
schema (`hdr._replace`); a missing field is Python's ValueError, a
non-decoded node has no `update` (AttributeError). -/
def updHdrField (i v : Nat) : AtomNode → Except String AtomNode
  | .decoded a hdr lst =>
    if i < hdr.length then .ok (.decoded a (hdr.set i v) lst)
    else .error "ValueError"
  | _ => .error "AttributeError"

/-- `node.lst[0] = node.lst[0]._replace(track_duration=v)`
(`track_duration` is field 0 of the elst record schema). -/
def updElstFirst (v : Nat) : AtomNode → Except String AtomNode
  | .decoded a hdr (some (r :: rs)) =>
    if 0 < r.length then .ok (.decoded a hdr (some (r.set 0 v :: rs)))
    else .error "ValueError"
  | .decoded _ _ _ => .error "IndexError"
  | _ => .error "AttributeError"

/-- `node.lst = newLst` (the stts rewrites). -/
def setLstF (newLst : List (List Nat)) : AtomNode → Except String AtomNode
  | .decoded a hdr _ => .ok (.decoded a hdr (some newLst))
  | _ => .error "AttributeError"

/-- `v_stsz.update(num_entries=nf, sample_size=0)` followed by the
rebuild of `v_stsz.lst` (num_entries is field 3, sample_size field 2 of
the stsz header schema). -/
def updStszF (nf : Nat) (sizes : List (List Nat)) : AtomNode → Except String AtomNode
  | .decoded a hdr _ =>
    if 3 < hdr.length then .ok (.decoded a ((hdr.set 3 nf).set 2 0) (some sizes))
    else .error "ValueError"
  | _ => .error "AttributeError"

/-- `v_co64.update(num_entries=nf)` plus the rebuild of `v_co64.lst`
(num_entries is field 2 of the co64 header schema). -/
def updCo64F (nf : Nat) (offsets : List (List Nat)) : AtomNode → Except String AtomNode
  | .decoded a hdr _ =>
    if 2 < hdr.length then .ok (.decoded a (hdr.set 2 nf) (some offsets))
    else .error "ValueError"
  | _ => .error "AttributeError"

/-- `md_atom.children.remove(md_atom['trak:%d' % trk_aud_idx])`. -/
def removeTrakAt (md : AtomNode) (a : Nat) : Except String AtomNode :=
  match md with
  | .container aid cs =>
    if a < countMatch cs K_TRAK then .ok (.container aid (delMatch cs K_TRAK a))
    else .error "KeyError"
  | _ => .error "TypeError"

/-- `BrawTimelapser.build_metadata` on the cloned tree, as a chain of
path updates.  Python fetches `v_trak`/`t_trak` references, removes the
audio trak, then mutates through the references; with explicit
threading the mutations come first and the audio-trak removal last,
which commutes because the removed trak is distinct from both mutated
traks and from `mvhd`.  The final `stsz`/`co64` list rebuild is the
`zip(self.frames_offset, self.frames_data)` loop. -/
def buildMetadata (md : AtomNode) (vid tim : Nat) (aud : Option Nat) (nf : Nat)
    (frames_offset : List Nat) (frames_data : List (List Nat)) :
    Except String AtomNode := do
  -- md_atom['mvhd'].update(duration=nf_new)
  let md ← updatePath md [(K_MVHD, none)] (updHdrField 5 nf)
  -- v_trak['tkhd'].update(duration=nf_new); t_trak likewise
  let md ← updatePath md [(K_TRAK, some vid), (K_TKHD, none)] (updHdrField 6 nf)
  let md ← updatePath md [(K_TRAK, some tim), (K_TKHD, none)] (updHdrField 6 nf)
  -- X_trak['edts/elst'].lst[0] = ..._replace(track_duration=nf_new)
  let md ← updatePath md [(K_TRAK, some vid), (K_EDTS, none), (K_ELST, none)]
    (updElstFirst nf)
  let md ← updatePath md [(K_TRAK, some tim), (K_EDTS, none), (K_ELST, none)]
    (updElstFirst nf)
  -- X_trak['mdia/mdhd'].update(duration=nf_new)
  let md ← updatePath md [(K_TRAK, some vid), (K_MDIA, none), (K_MDHD, none)]
    (updHdrField 5 nf)
  let md ← updatePath md [(K_TRAK, some tim), (K_MDIA, none), (K_MDHD, none)]
    (updHdrField 5 nf)
  -- stts: video [(sample_count=nf_new, sample_duration=1)],
  --       timecode [(sample_count=1, sample_duration=nf_new)]
  let md ← updatePath md
    [(K_TRAK, some vid), (K_MDIA, none), (K_MINF, none), (K_STBL, none), (K_STTS, none)]
    (setLstF [[nf, 1]])
  let md ← updatePath md
    [(K_TRAK, some tim), (K_MDIA, none), (K_MINF, none), (K_STBL, none), (K_STTS, none)]
    (setLstF [[1, nf]])
  -- stsz / co64 rebuild from the selected frames
  let md ← updatePath md
    [(K_TRAK, some vid), (K_MDIA, none), (K_MINF, none), (K_STBL, none), (K_STSZ, none)]
    (updStszF nf ((frames_offset.zip frames_data).map (fun p => [p.2.length])))
  let md ← updatePath md
    [(K_TRAK, some vid), (K_MDIA, none), (K_MINF, none), (K_STBL, none), (K_CO64, none)]
    (updCo64F nf ((frames_offset.zip frames_data).map (fun p => [p.1])))
  -- audio trak removal (Python does it before the updates; it commutes)
  match aud with
  | none => pure md
  | some a => removeTrakAt md a

/-- Read header field `i` of the decoded node at `p` (e.g.
`md_atom['mvhd'].hdr.duration`). -/
def qHdrField (a : AtomNode) (p : List (Nat × Option Nat)) (i : Nat) : Option Nat :=
  match queryPath a p with
  | .ok (.decoded _ hdr _) => hdr[i]?
  | _ => none

/-- Read field `i` of list record `j` of the decoded node at `p` (e.g.
`..['edts/elst'].lst[0].track_duration`). -/
def qLstEntryField (a : AtomNode) (p : List (Nat × Option Nat)) (j i : Nat) :
    Option Nat :=
  match queryPath a p with
  | .ok (.decoded _ _ (some l)) =>
    match l[j]? with
    | some r => r[i]?
    | none => none
  | _ => none

/-- The index of a trak among the trak children after the audio trak
(if any) was removed. -/
def adjIdx (aud : Option Nat) (i : Nat) : Nat :=
  match aud with
  | none => i
  | some a => if a < i then i - 1 else i

theorem aidPres_updHdrField (i v : Nat) : AidPres (updHdrField i v) := by
  intro x y h
  cases x <;> simp only [updHdrField] at h
  · cases h
  · cases h
  · split at h
    · simp only [Except.ok.injEq] at h
      subst h
      rfl
    · cases h

theorem aidPres_updElstFirst (v : Nat) : AidPres (updElstFirst v) := by
  intro x y h
  match x with
  | .container _ _ => cases h
  | .leaf _ _ => cases h
  | .decoded a hdr none => cases h
  | .decoded a hdr (some []) => cases h
  | .decoded a hdr (some (r :: rs)) =>
    simp only [updElstFirst] at h
    split at h
    · simp only [Except.ok.injEq] at h
      subst h
      rfl
    · cases h

theorem aidPres_setLstF (l : List (List Nat)) : AidPres (setLstF l) := by
  intro x y h
  cases x <;> simp only [setLstF] at h
  · cases h
  · cases h
  · simp only [Except.ok.injEq] at h
    subst h
    rfl

theorem aidPres_updStszF (nf : Nat) (l : List (List Nat)) : AidPres (updStszF nf l) := by
  intro x y h
  cases x <;> simp only [updStszF] at h
  · cases h
  · cases h
  · split at h
    · simp only [Except.ok.injEq] at h
      subst h
      rfl
    · cases h

theorem aidPres_updCo64F (nf : Nat) (l : List (List Nat)) : AidPres (updCo64F nf l) := by
  intro x y h
  cases x <;> simp only [updCo64F] at h
  · cases h
  · cases h
  · split at h
    · simp only [Except.ok.injEq] at h
      subst h
      rfl
    · cases h

theorem bind_ok_inv {ε α β : Type} {x : Except ε α} {f : α → Except ε β} {b : β}
    (h : (x >>= f) = .ok b) : ∃ a, x = .ok a ∧ f a = .ok b := by
  cases x with
  | error e => exact absurd h (by simp [Bind.bind, Except.bind])
  | ok a => exact ⟨a, rfl, by simpa [Bind.bind, Except.bind] using h⟩

theorem updatePath_top_resolve {f : AtomNode → Except String AtomNode}
    {a a' : AtomNode} {k : Nat} {idx : Option Nat} {rest : List (Nat × Option Nat)}
    (h : updatePath a ((k, idx) :: rest) f = .ok a') :
    ∃ aid cs, a = .container aid cs ∧ idx.getD 0 < countMatch cs k := by
  match a with
  | .leaf _ _ => simp [updatePath] at h
  | .decoded _ _ _ => simp [updatePath] at h
  | .container aid cs =>
    refine ⟨aid, cs, rfl, ?_⟩
    simp only [updatePath] at h
    split at h
    · simp at h
    · rename_i i hseg
      obtain ⟨hi, hlt⟩ := segIdx_ok_getD hseg
      rw [hi] at hlt
      exact hlt

theorem qHdrField_upd {p : List (Nat × Option Nat)} {md md2 : AtomNode} {i v : Nat}
    (h : updatePath md p (updHdrField i v) = .ok md2) :
    qHdrField md2 p i = some v := by
  obtain ⟨t, t', hq, hf, hq'⟩ := updatePath_query (aidPres_updHdrField i v) p md md2 h
  match t with
  | .container _ _ => simp [updHdrField] at hf
  | .leaf _ _ => simp [updHdrField] at hf
  | .decoded a hdr lst =>
    simp only [updHdrField] at hf
    split at hf
    · rename_i hlen
      simp only [Except.ok.injEq] at hf
      subst hf
      unfold qHdrField
      rw [hq']
      simp [List.getElem?_set_self', hlen]
    · simp at hf

theorem qLstEntryField_upd {p : List (Nat × Option Nat)} {md md2 : AtomNode} {v : Nat}
    (h : updatePath md p (updElstFirst v) = .ok md2) :
    qLstEntryField md2 p 0 0 = some v := by
  obtain ⟨t, t', hq, hf, hq'⟩ := updatePath_query (aidPres_updElstFirst v) p md md2 h
  match t with
  | .container _ _ => simp [updElstFirst] at hf
  | .leaf _ _ => simp [updElstFirst] at hf
  | .decoded a hdr none => simp [updElstFirst] at hf
  | .decoded a hdr (some []) => simp [updElstFirst] at hf
  | .decoded a hdr (some (r :: rs)) =>
    simp only [updElstFirst] at hf
    split at hf
    · rename_i hlen
      simp only [Except.ok.injEq] at hf
      subst hf
      unfold qLstEntryField
      rw [hq']
      simp [List.getElem?_set_self', hlen]
    · simp at hf

theorem query_setLst_upd {p : List (Nat × Option Nat)} {md md2 : AtomNode}
    {l : List (List Nat)} {a0 : Nat} {hdr0 : List Nat} {lst0 : Option (List (List Nat))}
    (h : updatePath md p (setLstF l) = .ok md2)
    (horig : queryPath md p = .ok (.decoded a0 hdr0 lst0)) :
    queryPath md2 p = .ok (.decoded a0 hdr0 (some l)) := by
  obtain ⟨t, t', hq, hf, hq'⟩ := updatePath_query (aidPres_setLstF l) p md md2 h
  rw [horig] at hq
  simp only [Except.ok.injEq] at hq
  subst hq
  simp only [setLstF, Except.ok.injEq] at hf
  subst hf
  exact hq'

theorem qHdrField_div {f : AtomNode → Except String AtomNode} (hf : AidPres f)
    {p q : List (Nat × Option Nat)} {md md2 : AtomNode}
    (h : updatePath md p f = .ok md2) (hd : Diverge p q) (i : Nat) :
    qHdrField md2 q i = qHdrField md q i := by
  unfold qHdrField
  rw [updatePath_query_diverge hf hd h]

theorem qLstEntryField_div {f : AtomNode → Except String AtomNode} (hf : AidPres f)
    {p q : List (Nat × Option Nat)} {md md2 : AtomNode}
    (h : updatePath md p f = .ok md2) (hd : Diverge p q) (j i : Nat) :
    qLstEntryField md2 q j i = qLstEntryField md q j i := by
  unfold qLstEntryField
  rw [updatePath_query_diverge hf hd h]

theorem updatePath_top_resolve2 {f : AtomNode → Except String AtomNode}
    {aid : Nat} {cs : List AtomNode} {a' : AtomNode} {k : Nat} {idx : Option Nat}
    {rest : List (Nat × Option Nat)}
    (h : updatePath (.container aid cs) ((k, idx) :: rest) f = .ok a') :
    idx.getD 0 < countMatch cs k := by
  obtain ⟨aid', cs', heq, hlt⟩ := updatePath_top_resolve h
  injection heq with e1 e2
  subst e2
  exact hlt

/-- C8: after `build_metadata` with new frame count `nf`, the `mvhd`
duration, both `tkhd` durations, both first `elst` entries'
track_duration, and both `mdhd` durations all equal `nf` (track paths
read with the audio-removal-adjusted trak index). -/
theorem C8_durations_agree (md md' : AtomNode) (vid tim : Nat) (aud : Option Nat)
    (nf : Nat) (fo : List Nat) (fd : List (List Nat))
    (hok : buildMetadata md vid tim aud nf fo fd = .ok md')
    (hvt : vid ≠ tim) (hav : aud ≠ some vid) (hat : aud ≠ some tim) :
    qHdrField md' [(K_MVHD, none)] 5 = some nf ∧
    qHdrField md' [(K_TRAK, some (adjIdx aud vid)), (K_TKHD, none)] 6 = some nf ∧
    qHdrField md' [(K_TRAK, some (adjIdx aud tim)), (K_TKHD, none)] 6 = some nf ∧
    qLstEntryField md' [(K_TRAK, some (adjIdx aud vid)), (K_EDTS, none),
      (K_ELST, none)] 0 0 = some nf ∧
    qLstEntryField md' [(K_TRAK, some (adjIdx aud tim)), (K_EDTS, none),
      (K_ELST, none)] 0 0 = some nf ∧
    qHdrField md' [(K_TRAK, some (adjIdx aud vid)), (K_MDIA, none),
      (K_MDHD, none)] 5 = some nf ∧
    qHdrField md' [(K_TRAK, some (adjIdx aud tim)), (K_MDIA, none),
      (K_MDHD, none)] 5 = some nf := by
  unfold buildMetadata at hok
  obtain ⟨m1, h1, hok⟩ := bind_ok_inv hok
  obtain ⟨m2, h2, hok⟩ := bind_ok_inv hok
  obtain ⟨m3, h3, hok⟩ := bind_ok_inv hok
  obtain ⟨m4, h4, hok⟩ := bind_ok_inv hok
  obtain ⟨m5, h5, hok⟩ := bind_ok_inv hok
  obtain ⟨m6, h6, hok⟩ := bind_ok_inv hok
  obtain ⟨m7, h7, hok⟩ := bind_ok_inv hok
  obtain ⟨m8, h8, hok⟩ := bind_ok_inv hok
  obtain ⟨m9, h9, hok⟩ := bind_ok_inv hok
  obtain ⟨m10, h10, hok⟩ := bind_ok_inv hok
  obtain ⟨m11, h11, hok⟩ := bind_ok_inv hok
  -- shapes and trak counts along the chain
  obtain ⟨aid1, cs1, rfl, hvid1⟩ := updatePath_top_resolve h2
  obtain ⟨cs2, rfl, hc2⟩ := updatePath_top_counts (aidPres_updHdrField 6 nf) h2
  have htim2 : tim < countMatch cs2 K_TRAK := updatePath_top_resolve2 h3
  obtain ⟨cs3, rfl, hc3⟩ := updatePath_top_counts (aidPres_updHdrField 6 nf) h3
  obtain ⟨cs4, rfl, hc4⟩ := updatePath_top_counts (aidPres_updElstFirst nf) h4
  obtain ⟨cs5, rfl, hc5⟩ := updatePath_top_counts (aidPres_updElstFirst nf) h5
  obtain ⟨cs6, rfl, hc6⟩ := updatePath_top_counts (aidPres_updHdrField 5 nf) h6
  obtain ⟨cs7, rfl, hc7⟩ := updatePath_top_counts (aidPres_updHdrField 5 nf) h7
  obtain ⟨cs8, rfl, hc8⟩ := updatePath_top_counts (aidPres_setLstF _) h8
  obtain ⟨cs9, rfl, hc9⟩ := updatePath_top_counts (aidPres_setLstF _) h9
  obtain ⟨cs10, rfl, hc10⟩ := updatePath_top_counts (aidPres_updStszF nf _) h10
  obtain ⟨cs11, rfl, hc11⟩ := updatePath_top_counts (aidPres_updCo64F nf _) h11
  have hvid11 : vid < countMatch cs11 K_TRAK := by
    rw [hc11, hc10, hc9, hc8, hc7, hc6, hc5, hc4, hc3, hc2]
    exact hvid1
  have htim11 : tim < countMatch cs11 K_TRAK := by
    rw [hc11, hc10, hc9, hc8, hc7, hc6, hc5, hc4, hc3]
    exact htim2
  -- head divergences used repeatedly
  have hneVT : (K_TRAK ≠ K_TRAK ∨
      (some vid : Option Nat).getD 0 ≠ (some tim : Option Nat).getD 0) :=
    Or.inr (by simpa using hvt)
  have hneTV : (K_TRAK ≠ K_TRAK ∨
      (some tim : Option Nat).getD 0 ≠ (some vid : Option Nat).getD 0) :=
    Or.inr (by simpa using Ne.symm hvt)
  -- the seven duration readouts on the pre-removal tree m11
  have RM : qHdrField (.container aid1 cs11) [(K_MVHD, none)] 5 = some nf := by
    rw [qHdrField_div (aidPres_updCo64F nf _) h11
        (Diverge.head (Or.inl (by decide))),
      qHdrField_div (aidPres_updStszF nf _) h10
        (Diverge.head (Or.inl (by decide))),
      qHdrField_div (aidPres_setLstF _) h9 (Diverge.head (Or.inl (by decide))),
      qHdrField_div (aidPres_setLstF _) h8 (Diverge.head (Or.inl (by decide))),
      qHdrField_div (aidPres_updHdrField 5 nf) h7
        (Diverge.head (Or.inl (by decide))),
      qHdrField_div (aidPres_updHdrField 5 nf) h6
        (Diverge.head (Or.inl (by decide))),
      qHdrField_div (aidPres_updElstFirst nf) h5
        (Diverge.head (Or.inl (by decide))),
      qHdrField_div (aidPres_updElstFirst nf) h4
        (Diverge.head (Or.inl (by decide))),
      qHdrField_div (aidPres_updHdrField 6 nf) h3
        (Diverge.head (Or.inl (by decide))),
      qHdrField_div (aidPres_updHdrField 6 nf) h2
        (Diverge.head (Or.inl (by decide)))]
    exact qHdrField_upd h1
  have RKV : qHdrField (.container aid1 cs11) [(K_TRAK, some vid), (K_TKHD, none)] 6
      = some nf := by
    rw [qHdrField_div (aidPres_updCo64F nf _) h11
        (Diverge.cons rfl rfl (Diverge.head (Or.inl (by decide)))),
      qHdrField_div (aidPres_updStszF nf _) h10
        (Diverge.cons rfl rfl (Diverge.head (Or.inl (by decide)))),
      qHdrField_div (aidPres_setLstF _) h9 (Diverge.head hneTV),
      qHdrField_div (aidPres_setLstF _) h8
        (Diverge.cons rfl rfl (Diverge.head (Or.inl (by decide)))),
      qHdrField_div (aidPres_updHdrField 5 nf) h7 (Diverge.head hneTV),
      qHdrField_div (aidPres_updHdrField 5 nf) h6
        (Diverge.cons rfl rfl (Diverge.head (Or.inl (by decide)))),
      qHdrField_div (aidPres_updElstFirst nf) h5 (Diverge.head hneTV),
      qHdrField_div (aidPres_updElstFirst nf) h4
        (Diverge.cons rfl rfl (Diverge.head (Or.inl (by decide)))),
      qHdrField_div (aidPres_updHdrField 6 nf) h3 (Diverge.head hneTV)]
    exact qHdrField_upd h2
  have RKT : qHdrField (.container aid1 cs11) [(K_TRAK, some tim), (K_TKHD, none)] 6
      = some nf := by
    rw [qHdrField_div (aidPres_updCo64F nf _) h11 (Diverge.head hneVT),
      qHdrField_div (aidPres_updStszF nf _) h10 (Diverge.head hneVT),
      qHdrField_div (aidPres_setLstF _) h9
        (Diverge.cons rfl rfl (Diverge.head (Or.inl (by decide)))),
      qHdrField_div (aidPres_setLstF _) h8 (Diverge.head hneVT),
      qHdrField_div (aidPres_updHdrField 5 nf) h7
        (Diverge.cons rfl rfl (Diverge.head (Or.inl (by decide)))),
      qHdrField_div (aidPres_updHdrField 5 nf) h6 (Diverge.head hneVT),
      qHdrField_div (aidPres_updElstFirst nf) h5
        (Diverge.cons rfl rfl (Diverge.head (Or.inl (by decide)))),
      qHdrField_div (aidPres_updElstFirst nf) h4 (Diverge.head hneVT)]
    exact qHdrField_upd h3
  have REV : qLstEntryField (.container aid1 cs11)
      [(K_TRAK, some vid), (K_EDTS, none), (K_ELST, none)] 0 0 = some nf := by
    rw [qLstEntryField_div (aidPres_updCo64F nf _) h11
        (Diverge.cons rfl rfl (Diverge.head (Or.inl (by decide)))),
      qLstEntryField_div (aidPres_updStszF nf _) h10
        (Diverge.cons rfl rfl (Diverge.head (Or.inl (by decide)))),
      qLstEntryField_div (aidPres_setLstF _) h9 (Diverge.head hneTV),
      qLstEntryField_div (aidPres_setLstF _) h8
        (Diverge.cons rfl rfl (Diverge.head (Or.inl (by decide)))),
      qLstEntryField_div (aidPres_updHdrField 5 nf) h7 (Diverge.head hneTV),
      qLstEntryField_div (aidPres_updHdrField 5 nf) h6
        (Diverge.cons rfl rfl (Diverge.head (Or.inl (by decide)))),
      qLstEntryField_div (aidPres_updElstFirst nf) h5 (Diverge.head hneTV)]
    exact qLstEntryField_upd h4
  have RET : qLstEntryField (.container aid1 cs11)
      [(K_TRAK, some tim), (K_EDTS, none), (K_ELST, none)] 0 0 = some nf := by
    rw [qLstEntryField_div (aidPres_updCo64F nf _) h11 (Diverge.head hneVT),
      qLstEntryField_div (aidPres_updStszF nf _) h10 (Diverge.head hneVT),
      qLstEntryField_div (aidPres_setLstF _) h9
        (Diverge.cons rfl rfl (Diverge.head (Or.inl (by decide)))),
      qLstEntryField_div (aidPres_setLstF _) h8 (Diverge.head hneVT),
      qLstEntryField_div (aidPres_updHdrField 5 nf) h7
        (Diverge.cons rfl rfl (Diverge.head (Or.inl (by decide)))),
      qLstEntryField_div (aidPres_updHdrField 5 nf) h6 (Diverge.head hneVT)]
    exact qLstEntryField_upd h5
  have RDV : qHdrField (.container aid1 cs11)
      [(K_TRAK, some vid), (K_MDIA, none), (K_MDHD, none)] 5 = some nf := by
    rw [qHdrField_div (aidPres_updCo64F nf _) h11
        (Diverge.cons rfl rfl (Diverge.cons rfl rfl
          (Diverge.head (Or.inl (by decide))))),
      qHdrField_div (aidPres_updStszF nf _) h10
        (Diverge.cons rfl rfl (Diverge.cons rfl rfl
          (Diverge.head (Or.inl (by decide))))),
      qHdrField_div (aidPres_setLstF _) h9 (Diverge.head hneTV),
      qHdrField_div (aidPres_setLstF _) h8
        (Diverge.cons rfl rfl (Diverge.cons rfl rfl
          (Diverge.head (Or.inl (by decide))))),
      qHdrField_div (aidPres_updHdrField 5 nf) h7 (Diverge.head hneTV)]
    exact qHdrField_upd h6
  have RDT : qHdrField (.container aid1 cs11)
      [(K_TRAK, some tim), (K_MDIA, none), (K_MDHD, none)] 5 = some nf := by
    rw [qHdrField_div (aidPres_updCo64F nf _) h11 (Diverge.head hneVT),
      qHdrField_div (aidPres_updStszF nf _) h10 (Diverge.head hneVT),
      qHdrField_div (aidPres_setLstF _) h9
        (Diverge.cons rfl rfl (Diverge.cons rfl rfl
          (Diverge.head (Or.inl (by decide))))),
      qHdrField_div (aidPres_setLstF _) h8 (Diverge.head hneVT)]
    exact qHdrField_upd h7
  -- audio-trak removal (or not), then read through it
  cases aud with
  | none =>
    simp only [pure, Except.pure, Except.ok.injEq] at hok
    subst hok
    exact ⟨RM, RKV, RKT, REV, RET, RDV, RDT⟩
  | some a =>
    simp only [removeTrakAt] at hok
    split at hok
    · rename_i ha11
      simp only [Except.ok.injEq] at hok
      subst hok
      have hnav : vid ≠ a := by
        intro he
        exact hav (by rw [he])
      have hnat : tim ≠ a := by
        intro he
        exact hat (by rw [he])
      refine ⟨?_, ?_, ?_, ?_, ?_, ?_, ?_⟩
      · unfold qHdrField
        rw [queryPath_delMatch_other [] (by decide)]
        exact RM
      · unfold qHdrField
        rw [show adjIdx (some a) vid = if a < vid then vid - 1 else vid from rfl,
          queryPath_delMatch_trak [(K_TKHD, none)] ha11 hvid11 hnav]
        exact RKV
      · unfold qHdrField
        rw [show adjIdx (some a) tim = if a < tim then tim - 1 else tim from rfl,
          queryPath_delMatch_trak [(K_TKHD, none)] ha11 htim11 hnat]
        exact RKT
      · unfold qLstEntryField
        rw [show adjIdx (some a) vid = if a < vid then vid - 1 else vid from rfl,
          queryPath_delMatch_trak [(K_EDTS, none), (K_ELST, none)] ha11 hvid11 hnav]
        exact REV
      · unfold qLstEntryField
        rw [show adjIdx (some a) tim = if a < tim then tim - 1 else tim from rfl,
          queryPath_delMatch_trak [(K_EDTS, none), (K_ELST, none)] ha11 htim11 hnat]
        exact RET
      · unfold qHdrField
        rw [show adjIdx (some a) vid = if a < vid then vid - 1 else vid from rfl,
          queryPath_delMatch_trak [(K_MDIA, none), (K_MDHD, none)] ha11 hvid11 hnav]
        exact RDV
      · unfold qHdrField
        rw [show adjIdx (some a) tim = if a < tim then tim - 1 else tim from rfl,
          queryPath_delMatch_trak [(K_MDIA, none), (K_MDHD, none)] ha11 htim11 hnat]
        exact RDT
    · simp at hok

theorem queryPath_last_aid :
    ∀ (p : List (Nat × Option Nat)) (a : AtomNode) (k : Nat) (idx : Option Nat)
      (t : AtomNode),
      queryPath a (p ++ [(k, idx)]) = .ok t → aidOf t = k := by
  intro p
  induction p with
  | nil =>
    intro a k idx t h
    match a with
    | .leaf _ _ => simp [queryPath] at h
    | .decoded _ _ _ => simp [queryPath] at h
    | .container aid cs =>
      simp only [List.nil_append, queryPath] at h
      split at h
      · simp at h
      · rename_i i hseg
        split at h
        · rename_i c hget
          simp only [queryPath_nil, Except.ok.injEq] at h
          subst h
          exact getMatch_aid hget
        · simp at h
  | cons seg rest ih =>
    intro a k idx t h
    match a with
    | .leaf _ _ => simp [queryPath] at h
    | .decoded _ _ _ => simp [queryPath] at h
    | .container aid cs =>
      obtain ⟨k0, idx0⟩ := seg
      simp only [List.cons_append, queryPath] at h
      split at h
      · simp at h
      · rename_i i hseg
        split at h
        · rename_i c hget
          exact ih c k idx t h
        · simp at h

theorem stts_serialize_window (v fl ne : Nat) (l : List (List Nat)) :
    ((serializeAtom (.decoded K_STTS [v, fl, ne] (some l))).drop 12).take 4
      = packBE 4 ne := by
  obtain ⟨L0, hser⟩ : ∃ L0, serializeAtom (.decoded K_STTS [v, fl, ne] (some l))
      = ((packBE 4 L0 ++ packBE 4 K_STTS)
          ++ (packBE 1 v ++ (packBE 3 fl ++ (packBE 4 ne ++ []))))
        ++ (l.map (encodeRecord sttsL)).flatten := ⟨_, rfl⟩
  rw [hser]
  have hre : ((packBE 4 L0 ++ packBE 4 K_STTS)
        ++ (packBE 1 v ++ (packBE 3 fl ++ (packBE 4 ne ++ []))))
      ++ (l.map (encodeRecord sttsL)).flatten
    = (packBE 4 L0 ++ (packBE 4 K_STTS ++ (packBE 1 v ++ packBE 3 fl)))
      ++ (packBE 4 ne ++ (l.map (encodeRecord sttsL)).flatten) := by
    simp [List.append_assoc]
  rw [hre]
  have h12 : (packBE 4 L0 ++ (packBE 4 K_STTS ++ (packBE 1 v ++ packBE 3 fl))).length
      = 12 := by
    simp [packBE_length]
  rw [← h12, List.drop_left]
  have h4 : (packBE 4 ne).length = 4 := packBE_length 4 ne
  have htl := List.take_left (packBE 4 ne) ((l.map (encodeRecord sttsL)).flatten)
  rw [h4] at htl
  exact htl

theorem stts_window (hdr : List Nat) (l : List (List Nat)) (h3 : hdr.length = 3) :
    ((serializeAtom (.decoded K_STTS hdr (some l))).drop 12).take 4
      = packBE 4 (hdr.getD 2 0) := by
  match hdr with
  | [] => simp at h3
  | [_] => simp at h3
  | [_, _] => simp at h3
  | v :: fl :: ne :: x :: t => simp at h3
  | [v, fl, ne] => simpa using stts_serialize_window v fl ne l

/-- C9: `build_metadata` replaces both stts record lists with a single
entry (`[(nf, 1)]` for video, `[(1, nf)]` for timecode) but leaves each
stts header — num_entries included — at its source-file value, and the
serialized stts atom therefore carries the stale source num_entries in
its header bytes (offset 12..16 of the atom). -/
theorem C9_stts_header_stale (md md' : AtomNode) (vid tim : Nat) (aud : Option Nat)
    (nf : Nat) (fo : List Nat) (fd : List (List Nat))
    (hok : buildMetadata md vid tim aud nf fo fd = .ok md')
    (hvt : vid ≠ tim) (hav : aud ≠ some vid) (hat : aud ≠ some tim)
    (aV aT : Nat) (hdrV hdrT : List Nat) (lstV lstT : Option (List (List Nat)))
    (horigV : queryPath md [(K_TRAK, some vid), (K_MDIA, none), (K_MINF, none),
      (K_STBL, none), (K_STTS, none)] = .ok (.decoded aV hdrV lstV))
    (horigT : queryPath md [(K_TRAK, some tim), (K_MDIA, none), (K_MINF, none),
      (K_STBL, none), (K_STTS, none)] = .ok (.decoded aT hdrT lstT)) :
    queryPath md' [(K_TRAK, some (adjIdx aud vid)), (K_MDIA, none), (K_MINF, none),
        (K_STBL, none), (K_STTS, none)] = .ok (.decoded aV hdrV (some [[nf, 1]])) ∧
    queryPath md' [(K_TRAK, some (adjIdx aud tim)), (K_MDIA, none), (K_MINF, none),
        (K_STBL, none), (K_STTS, none)] = .ok (.decoded aT hdrT (some [[1, nf]])) ∧
    aV = K_STTS ∧ aT = K_STTS ∧
    (hdrV.length = 3 →
      ((serializeAtom (.decoded K_STTS hdrV (some [[nf, 1]]))).drop 12).take 4
        = packBE 4 (hdrV.getD 2 0)) ∧
    (hdrT.length = 3 →
      ((serializeAtom (.decoded K_STTS hdrT (some [[1, nf]]))).drop 12).take 4
        = packBE 4 (hdrT.getD 2 0)) := by
  have haV : aV = K_STTS := by
    have := queryPath_last_aid
      [(K_TRAK, some vid), (K_MDIA, none), (K_MINF, none), (K_STBL, none)]
      md K_STTS none (.decoded aV hdrV lstV) horigV
    simpa [aidOf] using this
  have haT : aT = K_STTS := by
    have := queryPath_last_aid
      [(K_TRAK, some tim), (K_MDIA, none), (K_MINF, none), (K_STBL, none)]
      md K_STTS none (.decoded aT hdrT lstT) horigT
    simpa [aidOf] using this
  unfold buildMetadata at hok
  obtain ⟨m1, h1, hok⟩ := bind_ok_inv hok
  obtain ⟨m2, h2, hok⟩ := bind_ok_inv hok
  obtain ⟨m3, h3, hok⟩ := bind_ok_inv hok
  obtain ⟨m4, h4, hok⟩ := bind_ok_inv hok
  obtain ⟨m5, h5, hok⟩ := bind_ok_inv hok
  obtain ⟨m6, h6, hok⟩ := bind_ok_inv hok
  obtain ⟨m7, h7, hok⟩ := bind_ok_inv hok
  obtain ⟨m8, h8, hok⟩ := bind_ok_inv hok
  obtain ⟨m9, h9, hok⟩ := bind_ok_inv hok
  obtain ⟨m10, h10, hok⟩ := bind_ok_inv hok
  obtain ⟨m11, h11, hok⟩ := bind_ok_inv hok
  obtain ⟨aid1, cs1, rfl, hvid1⟩ := updatePath_top_resolve h2
  obtain ⟨cs2, rfl, hc2⟩ := updatePath_top_counts (aidPres_updHdrField 6 nf) h2
  have htim2 : tim < countMatch cs2 K_TRAK := updatePath_top_resolve2 h3
  obtain ⟨cs3, rfl, hc3⟩ := updatePath_top_counts (aidPres_updHdrField 6 nf) h3
  obtain ⟨cs4, rfl, hc4⟩ := updatePath_top_counts (aidPres_updElstFirst nf) h4
  obtain ⟨cs5, rfl, hc5⟩ := updatePath_top_counts (aidPres_updElstFirst nf) h5
  obtain ⟨cs6, rfl, hc6⟩ := updatePath_top_counts (aidPres_updHdrField 5 nf) h6
  obtain ⟨cs7, rfl, hc7⟩ := updatePath_top_counts (aidPres_updHdrField 5 nf) h7
  obtain ⟨cs8, rfl, hc8⟩ := updatePath_top_counts (aidPres_setLstF _) h8
  obtain ⟨cs9, rfl, hc9⟩ := updatePath_top_counts (aidPres_setLstF _) h9
  obtain ⟨cs10, rfl, hc10⟩ := updatePath_top_counts (aidPres_updStszF nf _) h10
  obtain ⟨cs11, rfl, hc11⟩ := updatePath_top_counts (aidPres_updCo64F nf _) h11
  have hvid11 : vid < countMatch cs11 K_TRAK := by
    rw [hc11, hc10, hc9, hc8, hc7, hc6, hc5, hc4, hc3, hc2]
    exact hvid1
  have htim11 : tim < countMatch cs11 K_TRAK := by
    rw [hc11, hc10, hc9, hc8, hc7, hc6, hc5, hc4, hc3]
    exact htim2
  have hneVT : (K_TRAK ≠ K_TRAK ∨
      (some vid : Option Nat).getD 0 ≠ (some tim : Option Nat).getD 0) :=
    Or.inr (by simpa using hvt)
  have hneTV : (K_TRAK ≠ K_TRAK ∨
      (some tim : Option Nat).getD 0 ≠ (some vid : Option Nat).getD 0) :=
    Or.inr (by simpa using Ne.symm hvt)
  -- original video stts node survives updates 1-7 untouched
  have Q7 : queryPath (.container aid1 cs7) [(K_TRAK, some vid), (K_MDIA, none),
      (K_MINF, none), (K_STBL, none), (K_STTS, none)]
      = .ok (.decoded aV hdrV lstV) := by
    rw [updatePath_query_diverge (aidPres_updHdrField 5 nf) (Diverge.head hneTV) h7,
      updatePath_query_diverge (aidPres_updHdrField 5 nf)
        (Diverge.cons rfl rfl (Diverge.cons rfl rfl
          (Diverge.head (Or.inl (by decide))))) h6,
      updatePath_query_diverge (aidPres_updElstFirst nf) (Diverge.head hneTV) h5,
      updatePath_query_diverge (aidPres_updElstFirst nf)
        (Diverge.cons rfl rfl (Diverge.head (Or.inl (by decide)))) h4,
      updatePath_query_diverge (aidPres_updHdrField 6 nf) (Diverge.head hneTV) h3,
      updatePath_query_diverge (aidPres_updHdrField 6 nf)
        (Diverge.cons rfl rfl (Diverge.head (Or.inl (by decide)))) h2,
      updatePath_query_diverge (aidPres_updHdrField 5 nf)
        (Diverge.head (Or.inl (by decide))) h1]
    exact horigV
  have Q8 : queryPath (.container aid1 cs8) [(K_TRAK, some vid), (K_MDIA, none), (K_MINF, none),
      (K_STBL, none), (K_STTS, none)] = .ok (.decoded aV hdrV (some [[nf, 1]])) :=
    query_setLst_upd h8 Q7
  have QV : queryPath (.container aid1 cs11) [(K_TRAK, some vid), (K_MDIA, none),
      (K_MINF, none), (K_STBL, none), (K_STTS, none)]
      = .ok (.decoded aV hdrV (some [[nf, 1]])) := by
    rw [updatePath_query_diverge (aidPres_updCo64F nf _)
        (Diverge.cons rfl rfl (Diverge.cons rfl rfl (Diverge.cons rfl rfl
          (Diverge.cons rfl rfl (Diverge.head (Or.inl (by decide))))))) h11,
      updatePath_query_diverge (aidPres_updStszF nf _)
        (Diverge.cons rfl rfl (Diverge.cons rfl rfl (Diverge.cons rfl rfl
          (Diverge.cons rfl rfl (Diverge.head (Or.inl (by decide))))))) h10,
      updatePath_query_diverge (aidPres_setLstF _) (Diverge.head hneTV) h9]
    exact Q8
  -- original timecode stts node survives updates 1-8 untouched
  have Q8T : queryPath (.container aid1 cs8) [(K_TRAK, some tim), (K_MDIA, none), (K_MINF, none),
      (K_STBL, none), (K_STTS, none)] = .ok (.decoded aT hdrT lstT) := by
    rw [updatePath_query_diverge (aidPres_setLstF _) (Diverge.head hneVT) h8,
      updatePath_query_diverge (aidPres_updHdrField 5 nf)
        (Diverge.cons rfl rfl (Diverge.cons rfl rfl
          (Diverge.head (Or.inl (by decide))))) h7,
      updatePath_query_diverge (aidPres_updHdrField 5 nf) (Diverge.head hneVT) h6,
      updatePath_query_diverge (aidPres_updElstFirst nf)
        (Diverge.cons rfl rfl (Diverge.head (Or.inl (by decide)))) h5,
      updatePath_query_diverge (aidPres_updElstFirst nf) (Diverge.head hneVT) h4,
      updatePath_query_diverge (aidPres_updHdrField 6 nf)
        (Diverge.cons rfl rfl (Diverge.head (Or.inl (by decide)))) h3,
      updatePath_query_diverge (aidPres_updHdrField 6 nf) (Diverge.head hneVT) h2,
      updatePath_query_diverge (aidPres_updHdrField 5 nf)
        (Diverge.head (Or.inl (by decide))) h1]
    exact horigT
  have Q9T : queryPath (.container aid1 cs9) [(K_TRAK, some tim), (K_MDIA, none), (K_MINF, none),
      (K_STBL, none), (K_STTS, none)] = .ok (.decoded aT hdrT (some [[1, nf]])) :=
    query_setLst_upd h9 Q8T
  have QT : queryPath (.container aid1 cs11) [(K_TRAK, some tim), (K_MDIA, none),
      (K_MINF, none), (K_STBL, none), (K_STTS, none)]
      = .ok (.decoded aT hdrT (some [[1, nf]])) := by
    rw [updatePath_query_diverge (aidPres_updCo64F nf _) (Diverge.head hneVT) h11,
      updatePath_query_diverge (aidPres_updStszF nf _) (Diverge.head hneVT) h10]
    exact Q9T
  refine ⟨?_, ?_, haV, haT,
    fun h3l => stts_window hdrV [[nf, 1]] h3l,
    fun h3l => stts_window hdrT [[1, nf]] h3l⟩
  · cases aud with
    | none =>
      simp only [pure, Except.pure, Except.ok.injEq] at hok
      subst hok
      exact QV
    | some a =>
      simp only [removeTrakAt] at hok
      split at hok
      · rename_i ha11
        simp only [Except.ok.injEq] at hok
        subst hok
        have hnav : vid ≠ a := by
          intro he
          exact hav (by rw [he])
        rw [show adjIdx (some a) vid = if a < vid then vid - 1 else vid from rfl,
          queryPath_delMatch_trak
            [(K_MDIA, none), (K_MINF, none), (K_STBL, none), (K_STTS, none)]
            ha11 hvid11 hnav]
        exact QV
      · simp at hok
  · cases aud with
    | none =>
      simp only [pure, Except.pure, Except.ok.injEq] at hok
      subst hok
      exact QT
    | some a =>
      simp only [removeTrakAt] at hok
      split at hok
      · rename_i ha11
        simp only [Except.ok.injEq] at hok
        subst hok
        have hnat : tim ≠ a := by
          intro he
          exact hat (by rw [he])
        rw [show adjIdx (some a) tim = if a < tim then tim - 1 else tim from rfl,
          queryPath_delMatch_trak
            [(K_MDIA, none), (K_MINF, none), (K_STBL, none), (K_STTS, none)]
            ha11 htim11 hnat]
        exact QT
      · simp at hok

/-! ## Concrete metadata tree for the C8 / C9 witnesses -/

def c8Tkhd : AtomNode := .decoded K_TKHD (List.replicate 7 0) none

def c8Elst : AtomNode := .decoded K_ELST [0, 0, 1] (some [[9, 0, 1]])

def c8Mdhd : AtomNode := .decoded K_MDHD (List.replicate 6 0) none

def c8Stts : AtomNode := .decoded K_STTS [0, 0, 9] (some [[9, 1]])

def c8Stsz : AtomNode := .decoded K_STSZ [0, 0, 0, 9] (some [])

def c8Co64 : AtomNode := .decoded K_CO64 [0, 0, 9] (some [])

def c8TrakV : AtomNode :=
  .container K_TRAK [c8Tkhd, .container K_EDTS [c8Elst],
    .container K_MDIA [c8Mdhd, .container K_MINF [.leaf K_VMHD [],
      .container K_STBL [c8Stts, c8Stsz, c8Co64]]]]

def c8TrakT : AtomNode :=
  .container K_TRAK [c8Tkhd, .container K_EDTS [c8Elst],
    .container K_MDIA [c8Mdhd, .container K_MINF [.container K_GMHD [],
      .container K_STBL [c8Stts]]]]

def c8Tree : AtomNode :=
  .container K_MOOV [.decoded K_MVHD (List.replicate 6 0) none, c8TrakV, c8TrakT]

def c8Fo : List Nat := [4096, 8192]

def c8Fd : List (List Nat) := [[7], [7, 7]]

def c8Out : AtomNode :=
  match buildMetadata c8Tree 0 1 none 2 c8Fo c8Fd with
  | .ok a => a
  | .error _ => .leaf 0 []

theorem c8Out_ok : buildMetadata c8Tree 0 1 none 2 c8Fo c8Fd = .ok c8Out := rfl

/-- Closed witness for `C8_durations_agree`: on the concrete tree
`c8Tree` with 2 selected frames, all seven duration fields read back 2. -/
theorem C8_durations_agree_witness :
    qHdrField c8Out [(K_MVHD, none)] 5 = some 2 ∧
    qHdrField c8Out [(K_TRAK, some (adjIdx none 0)), (K_TKHD, none)] 6 = some 2 ∧
    qHdrField c8Out [(K_TRAK, some (adjIdx none 1)), (K_TKHD, none)] 6 = some 2 ∧
    qLstEntryField c8Out [(K_TRAK, some (adjIdx none 0)), (K_EDTS, none),
      (K_ELST, none)] 0 0 = some 2 ∧
    qLstEntryField c8Out [(K_TRAK, some (adjIdx none 1)), (K_EDTS, none),
      (K_ELST, none)] 0 0 = some 2 ∧
    qHdrField c8Out [(K_TRAK, some (adjIdx none 0)), (K_MDIA, none),
      (K_MDHD, none)] 5 = some 2 ∧
    qHdrField c8Out [(K_TRAK, some (adjIdx none 1)), (K_MDIA, none),
      (K_MDHD, none)] 5 = some 2 :=
  C8_durations_agree c8Tree c8Out 0 1 none 2 c8Fo c8Fd c8Out_ok
    (by decide) (by decide) (by decide)

/-- Closed witness for `C9_stts_header_stale`: on `c8Tree` both source
stts atoms carry `num_entries = 9`; after the rebuild with 2 frames the
record lists are `[[2, 1]]` and `[[1, 2]]` but the headers still read 9,
and the serialized header bytes at offset 12..16 encode 9. -/
theorem C9_stts_header_stale_witness :
    queryPath c8Out [(K_TRAK, some (adjIdx none 0)), (K_MDIA, none), (K_MINF, none),
        (K_STBL, none), (K_STTS, none)]
      = .ok (.decoded K_STTS [0, 0, 9] (some [[2, 1]])) ∧
    queryPath c8Out [(K_TRAK, some (adjIdx none 1)), (K_MDIA, none), (K_MINF, none),
        (K_STBL, none), (K_STTS, none)]
      = .ok (.decoded K_STTS [0, 0, 9] (some [[1, 2]])) ∧
    K_STTS = K_STTS ∧ K_STTS = K_STTS ∧
    (([0, 0, 9] : List Nat).length = 3 →
      ((serializeAtom (.decoded K_STTS [0, 0, 9] (some [[2, 1]]))).drop 12).take 4
        = packBE 4 (([0, 0, 9] : List Nat).getD 2 0)) ∧
    (([0, 0, 9] : List Nat).length = 3 →
      ((serializeAtom (.decoded K_STTS [0, 0, 9] (some [[1, 2]]))).drop 12).take 4
        = packBE 4 (([0, 0, 9] : List Nat).getD 2 0)) :=
  C9_stts_header_stale c8Tree c8Out 0 1 none 2 c8Fo c8Fd c8Out_ok
    (by decide) (by decide) (by decide)
    K_STTS K_STTS [0, 0, 9] [0, 0, 9] (some [[9, 1]]) (some [[9, 1]]) rfl rfl
